import Mathlib

/-!
Verification of the libheif uncompressed-codec core (ISO 23001-17 descriptor
boxes, component-interleave encoder, Bayer bilinear demosaic, ID allocator,
WebVMT metadata timeline) against its natural-language specification.

Bytes are modelled as natural numbers below 256, byte streams as `List Nat`,
machine counters as naturals reduced modulo `2 ^ 32` where the code relies on
wrap-around.  Fallible operations return `Option` or `Except`.
-/

namespace Unc

/-- Big-endian serialization of `v` into exactly `w` bytes (most significant
byte first), as performed by the box `StreamWriter`. -/
def beBytes : Nat → Nat → List Nat
  | 0, _ => []
  | w + 1, v => (v / 256 ^ w) :: beBytes w (v % 256 ^ w)

theorem beBytes_length (w v : Nat) : (beBytes w v).length = w := by
  induction w generalizing v with
  | zero => rfl
  | succ w ih => simp [beBytes, ih]

/-- Big-endian bounded read of `w` bytes into the accumulator `acc`,
consuming from the front of the stream; over-read returns `none`. -/
def readBE : Nat → Nat → List Nat → Option (Nat × List Nat)
  | 0, acc, s => some (acc, s)
  | _ + 1, _, [] => none
  | w + 1, acc, b :: s => readBE w (acc * 256 + b) s

theorem readBE_append (w : Nat) (acc v : Nat) (rest : List Nat) (h : v < 256 ^ w) :
    readBE w acc (beBytes w v ++ rest) = some (acc * 256 ^ w + v, rest) := by
  induction w generalizing acc v with
  | zero =>
    have hv : v = 0 := by simpa using h
    subst hv
    simp [beBytes, readBE]
  | succ w ih =>
    have hpow : 0 < 256 ^ w := Nat.pos_pow_of_pos w (by norm_num)
    have hmod : v % 256 ^ w < 256 ^ w := Nat.mod_lt _ hpow
    have hstep : readBE (w + 1) acc (beBytes (w + 1) v ++ rest)
        = readBE w (acc * 256 + v / 256 ^ w) (beBytes w (v % 256 ^ w) ++ rest) := rfl
    rw [hstep, ih _ _ hmod]
    have key : (acc * 256 + v / 256 ^ w) * 256 ^ w + v % 256 ^ w = acc * 256 ^ (w + 1) + v :=
      calc (acc * 256 + v / 256 ^ w) * 256 ^ w + v % 256 ^ w
          = acc * (256 ^ w * 256) + (256 ^ w * (v / 256 ^ w) + v % 256 ^ w) := by ring
        _ = acc * (256 ^ w * 256) + v := by rw [Nat.div_add_mod]
        _ = acc * 256 ^ (w + 1) + v := by ring
    rw [key]

/-- Read `w` big-endian bytes starting from a zero accumulator. -/
def rBE (w : Nat) (s : List Nat) : Option (Nat × List Nat) :=
  readBE w 0 s

theorem rBE_append (w v : Nat) (rest : List Nat) (h : v < 256 ^ w) :
    rBE w (beBytes w v ++ rest) = some (v, rest) := by
  unfold rBE
  rw [readBE_append w 0 v rest h]
  simp

/-- Parse a fixed number of items with an item-level reader. -/
def parseCount {α : Type} : Nat → (List Nat → Option (α × List Nat)) → List Nat →
    Option (List α × List Nat)
  | 0, _, s => some ([], s)
  | n + 1, p, s =>
    (p s).bind fun a =>
      (parseCount n p a.2).bind fun l => some (a.1 :: l.1, l.2)

theorem parseCount_append {α : Type} (p : List Nat → Option (α × List Nat))
    (wr : α → List Nat) (l : List α) (rest : List Nat)
    (h : ∀ a ∈ l, ∀ r, p (wr a ++ r) = some (a, r)) :
    parseCount l.length p ((l.map wr).flatten ++ rest) = some (l, rest) := by
  induction l with
  | nil => simp [parseCount]
  | cons a l ih =>
    have ha := h a (by simp)
    have hl : ∀ x ∈ l, ∀ r, p (wr x ++ r) = some (x, r) := fun x hx r => h x (by simp [hx]) r
    simp only [List.map_cons, List.flatten_cons, List.length_cons, List.append_assoc, parseCount]
    rw [ha]
    simp only [Option.some_bind]
    rw [ih hl]
    rfl

/-- NUL-terminated byte string reader, as used for custom cmpd URIs. -/
def parseCString : List Nat → Option (List Nat × List Nat)
  | [] => none
  | b :: s =>
    if b = 0 then some ([], s)
    else (parseCString s).bind fun u => some (b :: u.1, u.2)

theorem parseCString_append (u : List Nat) (rest : List Nat) (h : ∀ b ∈ u, b ≠ 0) :
    parseCString (u ++ 0 :: rest) = some (u, rest) := by
  induction u with
  | nil => simp [parseCString]
  | cons b u ih =>
    have hb : b ≠ 0 := h b (by simp)
    simp only [List.cons_append, parseCString, if_neg hb, List.append_eq]
    rw [ih (fun x hx => h x (by simp [hx]))]
    rfl

/-- Modelled from the spec: libheif's `Box_cmpd::Component` (the box layer
`unc_boxes.cc` is outside the provided sources; layout from §4.B and the
`cmpd` unit tests): a 16-bit component type, with a NUL-terminated URI
serialized after it exactly when the type is custom (`≥ 0x8000`). -/
structure CmpdComponent where
  ctype : Nat
  uri : List Nat
deriving DecidableEq

/-- Modelled from the spec: one `uncC` component entry
`(index:u16, bit_depth_minus_one:u8, format:u8, align_size:u8)`;
`bitDepth` stores the logical depth (wire value plus one). -/
structure UncCComponent where
  idx : Nat
  bitDepth : Nat
  fmt : Nat
  alignSize : Nat
deriving DecidableEq

/-- Modelled from the spec: the `uncC` descriptor (§3, §4.B).  `numTileCols`
and `numTileRows` are the logical values (wire stores them minus one). -/
structure UncCBox where
  profile : Nat
  comps : List UncCComponent
  samplingType : Nat
  interleaveType : Nat
  blockSize : Nat
  compsLE : Bool
  blockPadLSB : Bool
  blockLE : Bool
  blockReversed : Bool
  padUnknown : Bool
  pixelSize : Nat
  rowAlignSize : Nat
  tileAlignSize : Nat
  numTileCols : Nat
  numTileRows : Nat
deriving DecidableEq

/-- Modelled from the spec: `cmpC` carries a compression fourcc and a
compressed-unit granularity byte. -/
structure CmpCBox where
  compressionType : Nat
  compressedUnitType : Nat
deriving DecidableEq

/-- One `icef` entry: byte offset and byte size of a compressed unit. -/
structure IcefUnit where
  unitOffset : Nat
  unitSize : Nat
deriving DecidableEq

/-- Modelled from the spec: the `icef` index box.  The header byte packs
`(offset_code <<< 5) ||| (size_code <<< 2)`; the field-width tables follow the
repository's `icef` unit tests (offset code 0 means offsets are implicit,
accumulated from sizes; codes 1..4 select 16/24/32/64-bit offsets, size codes
0..4 select 8/16/24/32/64-bit sizes). -/
structure IcefBox where
  offsetCode : Nat
  sizeCode : Nat
  units : List IcefUnit
deriving DecidableEq

/-- Modelled from the spec: `cpat` Bayer pattern box: pattern dimensions and
`pw·ph` entries `(component_index : u32, gain : f32)`; the float is carried
as its 32-bit pattern. -/
structure CpatBox where
  patternWidth : Nat
  patternHeight : Nat
  pixels : List (Nat × Nat)
deriving DecidableEq

/-- Modelled from the spec: `splz` polarization pattern box (layout from the
`splz` unit test); angles are f32 bit patterns. -/
structure SplzBox where
  componentIndices : List Nat
  patternWidth : Nat
  patternHeight : Nat
  angles : List Nat
deriving DecidableEq

/-- Modelled from the spec: `sbpm` sensor bad-pixels map box: optional
component list, `correction_applied` flag, bad rows, bad columns and bad
`(row, col)` pixels. -/
structure SbpmBox where
  componentIndices : List Nat
  correctionApplied : Bool
  badRows : List Nat
  badCols : List Nat
  badPixels : List (Nat × Nat)
deriving DecidableEq

/-- Modelled from the spec: `snuc` non-uniformity correction box (layout from
the `snuc` unit test); gains and offsets are f32 bit patterns, `w·h` each. -/
structure SnucBox where
  componentIndices : List Nat
  applied : Bool
  imageWidth : Nat
  imageHeight : Nat
  gains : List Nat
  offsets : List Nat
deriving DecidableEq

/-- Modelled from the spec: `cloc` chroma sample-location box; values outside
`[0,6]` are rejected on parse. -/
structure ClocBox where
  chromaLocation : Nat
deriving DecidableEq

/-- The nine descriptor boxes of the uncompressed codec. -/
inductive DescBox
  | cmpd (cs : List CmpdComponent)
  | uncC (b : UncCBox)
  | cmpC (b : CmpCBox)
  | icef (b : IcefBox)
  | cpat (b : CpatBox)
  | splz (b : SplzBox)
  | sbpm (b : SbpmBox)
  | snuc (b : SnucBox)
  | cloc (b : ClocBox)
deriving DecidableEq

def cmpdTag : Nat := 0x636d7064
def uncCTag : Nat := 0x756e6343
def cmpCTag : Nat := 0x636d7043
def icefTag : Nat := 0x69636566
def cpatTag : Nat := 0x63706174
def splzTag : Nat := 0x73706c7a
def sbpmTag : Nat := 0x7362706d
def snucTag : Nat := 0x736e7563
def clocTag : Nat := 0x636c6f63

/-- Plain box framing: 32-bit total size, fourcc, payload. -/
def wrapBox (tag : Nat) (payload : List Nat) : List Nat :=
  beBytes 4 (8 + payload.length) ++ beBytes 4 tag ++ payload

/-- FullBox framing: 32-bit total size, fourcc, version 0 / flags 0, payload. -/
def wrapFullBox (tag : Nat) (payload : List Nat) : List Nat :=
  beBytes 4 (12 + payload.length) ++ beBytes 4 tag ++ beBytes 4 0 ++ payload

def writeCmpdComponent (c : CmpdComponent) : List Nat :=
  beBytes 2 c.ctype ++ (if 0x8000 ≤ c.ctype then c.uri ++ [0] else [])

def cmpdPayload (cs : List CmpdComponent) : List Nat :=
  beBytes 4 cs.length ++ (cs.map writeCmpdComponent).flatten

def writeUncCComponent (c : UncCComponent) : List Nat :=
  beBytes 2 c.idx ++ [(c.bitDepth - 1) % 256, c.fmt % 256, c.alignSize % 256]

def boolBit (b : Bool) (k : Nat) : Nat := if b then 2 ^ k else 0

def uncCFlagsByte (b : UncCBox) : Nat :=
  boolBit b.compsLE 7 + boolBit b.blockPadLSB 6 + boolBit b.blockLE 5 +
    boolBit b.blockReversed 4 + boolBit b.padUnknown 3

def uncCPayload (b : UncCBox) : List Nat :=
  beBytes 4 b.profile ++ beBytes 4 b.comps.length ++
    (b.comps.map writeUncCComponent).flatten ++
    [b.samplingType % 256, b.interleaveType % 256, b.blockSize % 256, uncCFlagsByte b] ++
    beBytes 4 b.pixelSize ++ beBytes 4 b.rowAlignSize ++ beBytes 4 b.tileAlignSize ++
    beBytes 4 (b.numTileCols - 1) ++ beBytes 4 (b.numTileRows - 1)

def cmpCPayload (b : CmpCBox) : List Nat :=
  beBytes 4 b.compressionType ++ [b.compressedUnitType % 256]

/-- `icef` offset field width in bytes per offset code (0 = implicit). -/
def icefOffsetBytes : Nat → Nat
  | 0 => 0
  | 1 => 2
  | 2 => 3
  | 3 => 4
  | 4 => 8
  | _ => 0

/-- `icef` size field width in bytes per size code. -/
def icefSizeBytes : Nat → Nat
  | 0 => 1
  | 1 => 2
  | 2 => 3
  | 3 => 4
  | 4 => 8
  | _ => 0

def writeIcefUnit (ob sb : Nat) (u : IcefUnit) : List Nat :=
  beBytes ob u.unitOffset ++ beBytes sb u.unitSize

def icefPayload (b : IcefBox) : List Nat :=
  [b.offsetCode * 32 + b.sizeCode * 4] ++ beBytes 4 b.units.length ++
    (b.units.map (writeIcefUnit (icefOffsetBytes b.offsetCode) (icefSizeBytes b.sizeCode))).flatten

def writeCpatPixel (p : Nat × Nat) : List Nat :=
  beBytes 4 p.1 ++ beBytes 4 p.2

def cpatPayload (b : CpatBox) : List Nat :=
  beBytes 2 b.patternWidth ++ beBytes 2 b.patternHeight ++
    (b.pixels.map writeCpatPixel).flatten

def splzPayload (b : SplzBox) : List Nat :=
  beBytes 4 b.componentIndices.length ++ (b.componentIndices.map (beBytes 4)).flatten ++
    beBytes 2 b.patternWidth ++ beBytes 2 b.patternHeight ++
    (b.angles.map (beBytes 4)).flatten

def writeBadPixel (p : Nat × Nat) : List Nat :=
  beBytes 4 p.1 ++ beBytes 4 p.2

def sbpmPayload (b : SbpmBox) : List Nat :=
  beBytes 4 b.componentIndices.length ++ (b.componentIndices.map (beBytes 4)).flatten ++
    [if b.correctionApplied then 128 else 0] ++
    beBytes 4 b.badRows.length ++ beBytes 4 b.badCols.length ++ beBytes 4 b.badPixels.length ++
    (b.badRows.map (beBytes 4)).flatten ++ (b.badCols.map (beBytes 4)).flatten ++
    (b.badPixels.map writeBadPixel).flatten

def snucPayload (b : SnucBox) : List Nat :=
  beBytes 4 b.componentIndices.length ++ (b.componentIndices.map (beBytes 4)).flatten ++
    [if b.applied then 128 else 0] ++
    beBytes 4 b.imageWidth ++ beBytes 4 b.imageHeight ++
    (b.gains.map (beBytes 4)).flatten ++ (b.offsets.map (beBytes 4)).flatten

def clocPayload (b : ClocBox) : List Nat :=
  [b.chromaLocation % 256]

/-- Serialize a descriptor box to its wire form (`write` in the box layer). -/
def writeBox : DescBox → List Nat
  | .cmpd cs => wrapBox cmpdTag (cmpdPayload cs)
  | .uncC b => wrapFullBox uncCTag (uncCPayload b)
  | .cmpC b => wrapFullBox cmpCTag (cmpCPayload b)
  | .icef b => wrapFullBox icefTag (icefPayload b)
  | .cpat b => wrapFullBox cpatTag (cpatPayload b)
  | .splz b => wrapFullBox splzTag (splzPayload b)
  | .sbpm b => wrapFullBox sbpmTag (sbpmPayload b)
  | .snuc b => wrapFullBox snucTag (snucPayload b)
  | .cloc b => wrapFullBox clocTag (clocPayload b)

def parseCmpdComponent (s : List Nat) : Option (CmpdComponent × List Nat) :=
  (rBE 2 s).bind fun t =>
    if t.1 < 32768 then some (⟨t.1, []⟩, t.2)
    else (parseCString t.2).bind fun u =>
      if u.1 = [] then none else some (⟨t.1, u.1⟩, u.2)

def parseCmpdPayload (s : List Nat) : Option (List CmpdComponent × List Nat) :=
  (rBE 4 s).bind fun n => parseCount n.1 parseCmpdComponent n.2

def parseUncCComponent (s : List Nat) : Option (UncCComponent × List Nat) :=
  (rBE 2 s).bind fun i =>
    match i.2 with
    | bd :: f :: a :: r => some (⟨i.1, bd + 1, f, a⟩, r)
    | _ => none

def parseUncCPayload (s : List Nat) : Option (UncCBox × List Nat) :=
  (rBE 4 s).bind fun prof =>
  (rBE 4 prof.2).bind fun n =>
  (parseCount n.1 parseUncCComponent n.2).bind fun comps =>
  match comps.2 with
  | st :: it :: bs :: fl :: r =>
    (rBE 4 r).bind fun ps =>
    (rBE 4 ps.2).bind fun ras =>
    (rBE 4 ras.2).bind fun tas =>
    (rBE 4 tas.2).bind fun c1 =>
    (rBE 4 c1.2).bind fun r1 =>
      some (⟨prof.1, comps.1, st, it, bs,
             fl.testBit 7, fl.testBit 6, fl.testBit 5, fl.testBit 4, fl.testBit 3,
             ps.1, ras.1, tas.1, c1.1 + 1, r1.1 + 1⟩, r1.2)
  | _ => none

def parseCmpCPayload (s : List Nat) : Option (CmpCBox × List Nat) :=
  (rBE 4 s).bind fun ct =>
    match ct.2 with
    | u :: r => some (⟨ct.1, u⟩, r)
    | _ => none

def parseIcefUnits (ob sb : Nat) : Nat → Nat → List Nat → Option (List IcefUnit × List Nat)
  | 0, _, s => some ([], s)
  | n + 1, run, s =>
    (if ob = 0 then some (run, s) else rBE ob s).bind fun o =>
    (rBE sb o.2).bind fun sz =>
    (parseIcefUnits ob sb n (o.1 + sz.1) sz.2).bind fun l =>
      some (⟨o.1, sz.1⟩ :: l.1, l.2)

def parseIcefPayload (s : List Nat) : Option (IcefBox × List Nat) :=
  match s with
  | code :: r =>
    if code / 32 ≤ 4 ∧ code / 4 % 8 ≤ 4 then
      (rBE 4 r).bind fun n =>
      (parseIcefUnits (icefOffsetBytes (code / 32)) (icefSizeBytes (code / 4 % 8)) n.1 0
          n.2).bind fun l =>
        some (⟨code / 32, code / 4 % 8, l.1⟩, l.2)
    else none
  | [] => none

def parseCpatPixel (s : List Nat) : Option ((Nat × Nat) × List Nat) :=
  (rBE 4 s).bind fun i => (rBE 4 i.2).bind fun g => some ((i.1, g.1), g.2)

def parseCpatPayload (s : List Nat) : Option (CpatBox × List Nat) :=
  (rBE 2 s).bind fun pw =>
  (rBE 2 pw.2).bind fun ph =>
  (parseCount (pw.1 * ph.1) parseCpatPixel ph.2).bind fun px =>
    some (⟨pw.1, ph.1, px.1⟩, px.2)

def parseSplzPayload (s : List Nat) : Option (SplzBox × List Nat) :=
  (rBE 4 s).bind fun n =>
  (parseCount n.1 (rBE 4) n.2).bind fun idxs =>
  (rBE 2 idxs.2).bind fun pw =>
  (rBE 2 pw.2).bind fun ph =>
  (parseCount (pw.1 * ph.1) (rBE 4) ph.2).bind fun angs =>
    some (⟨idxs.1, pw.1, ph.1, angs.1⟩, angs.2)

def parseBadPixel (s : List Nat) : Option ((Nat × Nat) × List Nat) :=
  (rBE 4 s).bind fun a => (rBE 4 a.2).bind fun b => some ((a.1, b.1), b.2)

def parseSbpmPayload (s : List Nat) : Option (SbpmBox × List Nat) :=
  (rBE 4 s).bind fun n =>
  (parseCount n.1 (rBE 4) n.2).bind fun idxs =>
  match idxs.2 with
  | fl :: r =>
    (rBE 4 r).bind fun nr =>
    (rBE 4 nr.2).bind fun nc =>
    (rBE 4 nc.2).bind fun np =>
    (parseCount nr.1 (rBE 4) np.2).bind fun rows =>
    (parseCount nc.1 (rBE 4) rows.2).bind fun cols =>
    (parseCount np.1 parseBadPixel cols.2).bind fun pxs =>
      some (⟨idxs.1, fl.testBit 7, rows.1, cols.1, pxs.1⟩, pxs.2)
  | [] => none

def parseSnucPayload (s : List Nat) : Option (SnucBox × List Nat) :=
  (rBE 4 s).bind fun n =>
  (parseCount n.1 (rBE 4) n.2).bind fun idxs =>
  match idxs.2 with
  | fl :: r =>
    (rBE 4 r).bind fun w =>
    (rBE 4 w.2).bind fun h =>
    (parseCount (w.1 * h.1) (rBE 4) h.2).bind fun gains =>
    (parseCount (w.1 * h.1) (rBE 4) gains.2).bind fun offs =>
      some (⟨idxs.1, fl.testBit 7, w.1, h.1, gains.1, offs.1⟩, offs.2)
  | [] => none

def parseClocPayload (s : List Nat) : Option (ClocBox × List Nat) :=
  match s with
  | v :: r => if v ≤ 6 then some (⟨v⟩, r) else none
  | [] => none

/-- FullBox prelude: one version byte (must be 0) and three flag bytes. -/
def parseVersionFlags (s : List Nat) : Option (List Nat) :=
  match s with
  | v :: _ :: _ :: _ :: r => if v = 0 then some r else none
  | _ => none

/-- FullBox payload dispatch by fourcc (every box except the plain `cmpd`). -/
def dispatchFull (tag : Nat) (body : List Nat) : Option DescBox :=
  if tag = uncCTag then
    (parseUncCPayload body).bind fun r => if r.2 = [] then some (.uncC r.1) else none
  else if tag = cmpCTag then
    (parseCmpCPayload body).bind fun r => if r.2 = [] then some (.cmpC r.1) else none
  else if tag = icefTag then
    (parseIcefPayload body).bind fun r => if r.2 = [] then some (.icef r.1) else none
  else if tag = cpatTag then
    (parseCpatPayload body).bind fun r => if r.2 = [] then some (.cpat r.1) else none
  else if tag = splzTag then
    (parseSplzPayload body).bind fun r => if r.2 = [] then some (.splz r.1) else none
  else if tag = sbpmTag then
    (parseSbpmPayload body).bind fun r => if r.2 = [] then some (.sbpm r.1) else none
  else if tag = snucTag then
    (parseSnucPayload body).bind fun r => if r.2 = [] then some (.snuc r.1) else none
  else if tag = clocTag then
    (parseClocPayload body).bind fun r => if r.2 = [] then some (.cloc r.1) else none
  else none

/-- Parse one descriptor box from its complete wire form: size prefix, fourcc
dispatch, FullBox version check, payload, and exact consumption. -/
def parseBox (s : List Nat) : Option DescBox :=
  (rBE 4 s).bind fun sz =>
  if sz.1 = s.length then
    (rBE 4 sz.2).bind fun tag =>
    if tag.1 = cmpdTag then
      (parseCmpdPayload tag.2).bind fun r =>
        if r.2 = [] then some (.cmpd r.1) else none
    else
      (parseVersionFlags tag.2).bind fun body => dispatchFull tag.1 body
  else none

def u32lim : Nat := 4294967296

def cmpdComponentOk (c : CmpdComponent) : Bool :=
  decide (c.ctype < 65536) &&
    (if c.ctype < 32768 then decide (c.uri = [])
     else decide (c.uri ≠ []) && c.uri.all fun b => decide (b ≠ 0) && decide (b < 256))

def cmpdOk (cs : List CmpdComponent) : Bool :=
  decide (cs.length < u32lim) && cs.all cmpdComponentOk

def uncCComponentOk (c : UncCComponent) : Bool :=
  decide (c.idx < 65536) && decide (1 ≤ c.bitDepth) && decide (c.bitDepth ≤ 256) &&
    decide (c.fmt < 256) && decide (c.alignSize < 256)

def uncCOk (b : UncCBox) : Bool :=
  decide (b.profile < u32lim) && decide (b.comps.length < u32lim) &&
    b.comps.all uncCComponentOk &&
    decide (b.samplingType < 256) && decide (b.interleaveType < 256) &&
    decide (b.blockSize < 256) &&
    decide (b.pixelSize < u32lim) && decide (b.rowAlignSize < u32lim) &&
    decide (b.tileAlignSize < u32lim) &&
    decide (1 ≤ b.numTileCols) && decide (b.numTileCols ≤ u32lim) &&
    decide (1 ≤ b.numTileRows) && decide (b.numTileRows ≤ u32lim)

def cmpCOk (b : CmpCBox) : Bool :=
  decide (b.compressionType < u32lim) && decide (b.compressedUnitType < 256)

def icefUnitsOk (ob sb : Nat) : Nat → List IcefUnit → Bool
  | _, [] => true
  | run, u :: rest =>
    (if ob = 0 then decide (u.unitOffset = run) else decide (u.unitOffset < 256 ^ ob)) &&
      decide (u.unitSize < 256 ^ sb) &&
      icefUnitsOk ob sb (u.unitOffset + u.unitSize) rest

def icefOk (b : IcefBox) : Bool :=
  decide (b.offsetCode ≤ 4) && decide (b.sizeCode ≤ 4) && decide (b.units.length < u32lim) &&
    icefUnitsOk (icefOffsetBytes b.offsetCode) (icefSizeBytes b.sizeCode) 0 b.units

def cpatOk (b : CpatBox) : Bool :=
  decide (1 ≤ b.patternWidth) && decide (b.patternWidth < 65536) &&
    decide (1 ≤ b.patternHeight) && decide (b.patternHeight < 65536) &&
    decide (b.pixels.length = b.patternWidth * b.patternHeight) &&
    b.pixels.all fun p => decide (p.1 < u32lim) && decide (p.2 < u32lim)

def splzOk (b : SplzBox) : Bool :=
  decide (b.componentIndices.length < u32lim) &&
    b.componentIndices.all (fun i => decide (i < u32lim)) &&
    decide (b.patternWidth < 65536) && decide (b.patternHeight < 65536) &&
    decide (b.angles.length = b.patternWidth * b.patternHeight) &&
    b.angles.all fun a => decide (a < u32lim)

def sbpmOk (b : SbpmBox) : Bool :=
  decide (b.componentIndices.length < u32lim) &&
    b.componentIndices.all (fun i => decide (i < u32lim)) &&
    decide (b.badRows.length < u32lim) && decide (b.badCols.length < u32lim) &&
    decide (b.badPixels.length < u32lim) &&
    b.badRows.all (fun i => decide (i < u32lim)) &&
    b.badCols.all (fun i => decide (i < u32lim)) &&
    b.badPixels.all fun p => decide (p.1 < u32lim) && decide (p.2 < u32lim)

def snucOk (b : SnucBox) : Bool :=
  decide (b.componentIndices.length < u32lim) &&
    b.componentIndices.all (fun i => decide (i < u32lim)) &&
    decide (b.imageWidth < u32lim) && decide (b.imageHeight < u32lim) &&
    decide (b.gains.length = b.imageWidth * b.imageHeight) &&
    decide (b.offsets.length = b.imageWidth * b.imageHeight) &&
    b.gains.all (fun a => decide (a < u32lim)) &&
    b.offsets.all fun a => decide (a < u32lim)

def clocOk (b : ClocBox) : Bool :=
  decide (b.chromaLocation ≤ 6)

def payloadOk : DescBox → Bool
  | .cmpd cs => cmpdOk cs
  | .uncC b => uncCOk b
  | .cmpC b => cmpCOk b
  | .icef b => icefOk b
  | .cpat b => cpatOk b
  | .splz b => splzOk b
  | .sbpm b => sbpmOk b
  | .snuc b => snucOk b
  | .cloc b => clocOk b

/-- Canonical box values: every field fits its wire width and the whole box
fits a 32-bit size prefix — exactly the values this codec itself produces. -/
def boxOk (B : DescBox) : Bool :=
  payloadOk B && decide ((writeBox B).length < u32lim)

theorem parseCmpdComponent_append (c : CmpdComponent) (r : List Nat)
    (h : cmpdComponentOk c = true) :
    parseCmpdComponent (writeCmpdComponent c ++ r) = some (c, r) := by
  obtain ⟨t, u⟩ := c
  have hpow : (256 : Nat) ^ 2 = 65536 := by norm_num
  by_cases hc : t < 32768
  · simp only [cmpdComponentOk, hc, if_true, Bool.and_eq_true, decide_eq_true_eq] at h
    obtain ⟨ht, hu⟩ := h
    subst hu
    have hle : ¬ 32768 ≤ t := by omega
    unfold writeCmpdComponent parseCmpdComponent
    simp only [hle, if_false, List.append_nil]
    rw [rBE_append 2 t r (by omega)]
    simp [hc]
  · simp only [cmpdComponentOk, hc, if_false, Bool.and_eq_true, decide_eq_true_eq,
      List.all_eq_true] at h
    obtain ⟨ht, hu, hall⟩ := h
    have hle : 32768 ≤ t := by omega
    unfold writeCmpdComponent parseCmpdComponent
    simp only [hle, if_true, List.append_assoc, List.singleton_append]
    rw [rBE_append 2 t _ (by omega)]
    rw [Option.some_bind]
    rw [if_neg (by omega)]
    rw [parseCString_append u r (fun b hb => (hall b hb).1)]
    simp [hu]

theorem parseCmpdPayload_append (cs : List CmpdComponent) (r : List Nat)
    (h : cmpdOk cs = true) :
    parseCmpdPayload (cmpdPayload cs ++ r) = some (cs, r) := by
  simp only [cmpdOk, Bool.and_eq_true, decide_eq_true_eq, List.all_eq_true] at h
  obtain ⟨hlen, hall⟩ := h
  unfold cmpdPayload parseCmpdPayload
  rw [List.append_assoc, rBE_append 4 cs.length _ (by simpa [u32lim] using hlen)]
  rw [Option.some_bind]
  exact parseCount_append _ _ _ _ fun a ha rr => parseCmpdComponent_append a rr (hall a ha)

theorem boolBit_flags (b1 b2 b3 b4 b5 : Bool) :
    ((boolBit b1 7 + boolBit b2 6 + boolBit b3 5 + boolBit b4 4 + boolBit b5 3).testBit 7 = b1)
    ∧ ((boolBit b1 7 + boolBit b2 6 + boolBit b3 5 + boolBit b4 4 + boolBit b5 3).testBit 6 = b2)
    ∧ ((boolBit b1 7 + boolBit b2 6 + boolBit b3 5 + boolBit b4 4 + boolBit b5 3).testBit 5 = b3)
    ∧ ((boolBit b1 7 + boolBit b2 6 + boolBit b3 5 + boolBit b4 4 + boolBit b5 3).testBit 4 = b4)
    ∧ ((boolBit b1 7 + boolBit b2 6 + boolBit b3 5 + boolBit b4 4 + boolBit b5 3).testBit 3 = b5) := by
  cases b1 <;> cases b2 <;> cases b3 <;> cases b4 <;> cases b5 <;> decide

theorem parseUncCComponent_append (c : UncCComponent) (r : List Nat)
    (h : uncCComponentOk c = true) :
    parseUncCComponent (writeUncCComponent c ++ r) = some (c, r) := by
  obtain ⟨i, bd, f, a⟩ := c
  simp only [uncCComponentOk, Bool.and_eq_true, decide_eq_true_eq] at h
  obtain ⟨⟨⟨⟨h1, h2⟩, h3⟩, h4⟩, h5⟩ := h
  unfold writeUncCComponent parseUncCComponent
  rw [Nat.mod_eq_of_lt (show bd - 1 < 256 by omega), Nat.mod_eq_of_lt h4, Nat.mod_eq_of_lt h5]
  rw [show beBytes 2 i ++ [bd - 1, f, a] ++ r = beBytes 2 i ++ ((bd - 1) :: f :: a :: r) by simp]
  rw [rBE_append 2 i _ (by omega)]
  rw [Option.some_bind]
  dsimp only
  rw [show bd - 1 + 1 = bd by omega]

theorem parseUncCPayload_append (b : UncCBox) (r : List Nat) (h : uncCOk b = true) :
    parseUncCPayload (uncCPayload b ++ r) = some (b, r) := by
  obtain ⟨prof, comps, st, it, bs, c1, c2, c3, c4, c5, ps, ras, tas, cols, rows⟩ := b
  simp only [uncCOk, Bool.and_eq_true, decide_eq_true_eq, List.all_eq_true] at h
  obtain ⟨⟨⟨⟨⟨⟨⟨⟨⟨⟨⟨⟨hprof, hlen⟩, hall⟩, hst⟩, hit⟩, hbs⟩, hps⟩, hras⟩, htas⟩,
    hc1⟩, hc2⟩, hr1⟩, hr2⟩ := h
  unfold uncCPayload parseUncCPayload uncCFlagsByte
  rw [Nat.mod_eq_of_lt hst, Nat.mod_eq_of_lt hit, Nat.mod_eq_of_lt hbs]
  simp only [List.append_assoc, List.cons_append, List.nil_append]
  rw [rBE_append 4 prof _ (by simpa [u32lim] using hprof)]
  rw [Option.some_bind]
  rw [rBE_append 4 comps.length _ (by simpa [u32lim] using hlen)]
  rw [Option.some_bind]
  rw [parseCount_append parseUncCComponent writeUncCComponent comps _
    (fun a ha rr => parseUncCComponent_append a rr (hall a ha))]
  rw [Option.some_bind]
  dsimp only
  rw [rBE_append 4 ps _ (by simpa [u32lim] using hps)]
  rw [Option.some_bind]
  rw [rBE_append 4 ras _ (by simpa [u32lim] using hras)]
  rw [Option.some_bind]
  rw [rBE_append 4 tas _ (by simpa [u32lim] using htas)]
  rw [Option.some_bind]
  rw [rBE_append 4 (cols - 1) _ (by simp only [u32lim] at hc2; omega)]
  rw [Option.some_bind]
  rw [rBE_append 4 (rows - 1) _ (by simp only [u32lim] at hr2; omega)]
  rw [Option.some_bind]
  have hf := boolBit_flags c1 c2 c3 c4 c5
  rw [hf.1, hf.2.1, hf.2.2.1, hf.2.2.2.1, hf.2.2.2.2]
  rw [show cols - 1 + 1 = cols by omega, show rows - 1 + 1 = rows by omega]

theorem parseCmpCPayload_append (b : CmpCBox) (r : List Nat) (h : cmpCOk b = true) :
    parseCmpCPayload (cmpCPayload b ++ r) = some (b, r) := by
  obtain ⟨ct, ut⟩ := b
  simp only [cmpCOk, Bool.and_eq_true, decide_eq_true_eq] at h
  obtain ⟨h1, h2⟩ := h
  unfold cmpCPayload parseCmpCPayload
  rw [Nat.mod_eq_of_lt h2]
  simp only [List.append_assoc, List.cons_append, List.nil_append]
  rw [rBE_append 4 ct _ (by simpa [u32lim] using h1)]
  rw [Option.some_bind]

theorem parseIcefUnits_append (ob sb : Nat) (units : List IcefUnit) (run : Nat)
    (rest : List Nat)
    (h : icefUnitsOk ob sb run units = true) :
    parseIcefUnits ob sb units.length run
      ((units.map (writeIcefUnit ob sb)).flatten ++ rest) = some (units, rest) := by
  induction units generalizing run with
  | nil => simp [parseIcefUnits]
  | cons u us ih =>
    by_cases hz : ob = 0
    · subst hz
      simp only [icefUnitsOk, eq_self_iff_true, if_true, Bool.and_eq_true,
        decide_eq_true_eq] at h
      obtain ⟨⟨ho, hs⟩, hrest⟩ := h
      simp only [List.map_cons, List.flatten_cons, List.length_cons, parseIcefUnits,
        writeIcefUnit, beBytes, List.nil_append, List.append_assoc]
      rw [if_pos trivial, Option.some_bind]
      rw [rBE_append sb u.unitSize _ hs, Option.some_bind]
      subst ho
      dsimp only
      rw [ih _ hrest]
      rfl
    · simp only [icefUnitsOk, if_neg hz, Bool.and_eq_true, decide_eq_true_eq] at h
      obtain ⟨⟨ho, hs⟩, hrest⟩ := h
      simp only [List.map_cons, List.flatten_cons, List.length_cons, parseIcefUnits,
        writeIcefUnit, List.append_assoc]
      rw [if_neg hz]
      rw [rBE_append ob u.unitOffset _ ho, Option.some_bind]
      rw [rBE_append sb u.unitSize _ hs, Option.some_bind]
      rw [ih _ hrest]
      rfl

theorem parseIcefPayload_append (b : IcefBox) (r : List Nat) (h : icefOk b = true) :
    parseIcefPayload (icefPayload b ++ r) = some (b, r) := by
  obtain ⟨oc, sc, units⟩ := b
  simp only [icefOk, Bool.and_eq_true, decide_eq_true_eq] at h
  obtain ⟨⟨⟨h1, h2⟩, h3⟩, h4⟩ := h
  have e1 : (oc * 32 + sc * 4) / 32 = oc := by omega
  have e2 : (oc * 32 + sc * 4) / 4 % 8 = sc := by omega
  unfold icefPayload parseIcefPayload
  simp only [List.cons_append, List.append_assoc, List.nil_append]
  rw [e1, e2]
  rw [if_pos ⟨h1, h2⟩]
  rw [rBE_append 4 units.length _ (by simpa [u32lim] using h3), Option.some_bind]
  rw [parseIcefUnits_append _ _ units 0 r h4, Option.some_bind]

theorem parseCpatPixel_append (p : Nat × Nat) (r : List Nat)
    (h1 : p.1 < u32lim) (h2 : p.2 < u32lim) :
    parseCpatPixel (writeCpatPixel p ++ r) = some (p, r) := by
  unfold writeCpatPixel parseCpatPixel
  rw [List.append_assoc]
  rw [rBE_append 4 p.1 _ (by simpa [u32lim] using h1), Option.some_bind]
  rw [rBE_append 4 p.2 _ (by simpa [u32lim] using h2), Option.some_bind]

theorem parseCpatPayload_append (b : CpatBox) (r : List Nat) (h : cpatOk b = true) :
    parseCpatPayload (cpatPayload b ++ r) = some (b, r) := by
  obtain ⟨pw, ph, pxs⟩ := b
  simp only [cpatOk, Bool.and_eq_true, decide_eq_true_eq, List.all_eq_true] at h
  obtain ⟨⟨⟨⟨⟨h1, h2⟩, h3⟩, h4⟩, h5⟩, h6⟩ := h
  unfold cpatPayload parseCpatPayload
  simp only [List.append_assoc]
  rw [rBE_append 2 pw _ (by omega), Option.some_bind]
  rw [rBE_append 2 ph _ (by omega), Option.some_bind]
  rw [← h5]
  rw [parseCount_append parseCpatPixel writeCpatPixel pxs r
    (fun a ha rr => parseCpatPixel_append a rr (h6 a ha).1 (h6 a ha).2), Option.some_bind]

theorem parseSplzPayload_append (b : SplzBox) (r : List Nat) (h : splzOk b = true) :
    parseSplzPayload (splzPayload b ++ r) = some (b, r) := by
  obtain ⟨idxs, pw, ph, angs⟩ := b
  simp only [splzOk, Bool.and_eq_true, decide_eq_true_eq, List.all_eq_true] at h
  obtain ⟨⟨⟨⟨⟨h1, h2⟩, h3⟩, h4⟩, h5⟩, h6⟩ := h
  unfold splzPayload parseSplzPayload
  simp only [List.append_assoc]
  rw [rBE_append 4 idxs.length _ (by simpa [u32lim] using h1), Option.some_bind]
  rw [parseCount_append (rBE 4) (beBytes 4) idxs _
    (fun a ha rr => rBE_append 4 a rr (by simpa [u32lim] using h2 a ha)), Option.some_bind]
  rw [rBE_append 2 pw _ (by omega), Option.some_bind]
  rw [rBE_append 2 ph _ (by omega), Option.some_bind]
  rw [← h5]
  rw [parseCount_append (rBE 4) (beBytes 4) angs r
    (fun a ha rr => rBE_append 4 a rr (by simpa [u32lim] using h6 a ha)), Option.some_bind]

theorem parseBadPixel_append (p : Nat × Nat) (r : List Nat)
    (h1 : p.1 < u32lim) (h2 : p.2 < u32lim) :
    parseBadPixel (writeBadPixel p ++ r) = some (p, r) := by
  unfold writeBadPixel parseBadPixel
  rw [List.append_assoc]
  rw [rBE_append 4 p.1 _ (by simpa [u32lim] using h1), Option.some_bind]
  rw [rBE_append 4 p.2 _ (by simpa [u32lim] using h2), Option.some_bind]

theorem parseSbpmPayload_append (b : SbpmBox) (r : List Nat) (h : sbpmOk b = true) :
    parseSbpmPayload (sbpmPayload b ++ r) = some (b, r) := by
  obtain ⟨idxs, app, rows, cols, pxs⟩ := b
  simp only [sbpmOk, Bool.and_eq_true, decide_eq_true_eq, List.all_eq_true] at h
  obtain ⟨⟨⟨⟨⟨⟨⟨h1, h2⟩, h3⟩, h4⟩, h5⟩, h6⟩, h7⟩, h8⟩ := h
  unfold sbpmPayload parseSbpmPayload
  simp only [List.append_assoc, List.cons_append, List.nil_append]
  rw [rBE_append 4 idxs.length _ (by simpa [u32lim] using h1), Option.some_bind]
  rw [parseCount_append (rBE 4) (beBytes 4) idxs _
    (fun a ha rr => rBE_append 4 a rr (by simpa [u32lim] using h2 a ha)), Option.some_bind]
  dsimp only
  rw [rBE_append 4 rows.length _ (by simpa [u32lim] using h3), Option.some_bind]
  rw [rBE_append 4 cols.length _ (by simpa [u32lim] using h4), Option.some_bind]
  rw [rBE_append 4 pxs.length _ (by simpa [u32lim] using h5), Option.some_bind]
  rw [parseCount_append (rBE 4) (beBytes 4) rows _
    (fun a ha rr => rBE_append 4 a rr (by simpa [u32lim] using h6 a ha)), Option.some_bind]
  rw [parseCount_append (rBE 4) (beBytes 4) cols _
    (fun a ha rr => rBE_append 4 a rr (by simpa [u32lim] using h7 a ha)), Option.some_bind]
  rw [parseCount_append parseBadPixel writeBadPixel pxs r
    (fun a ha rr => parseBadPixel_append a rr (h8 a ha).1 (h8 a ha).2), Option.some_bind]
  cases app <;> rfl

theorem parseSnucPayload_append (b : SnucBox) (r : List Nat) (h : snucOk b = true) :
    parseSnucPayload (snucPayload b ++ r) = some (b, r) := by
  obtain ⟨idxs, app, w, hh, gains, offs⟩ := b
  simp only [snucOk, Bool.and_eq_true, decide_eq_true_eq, List.all_eq_true] at h
  obtain ⟨⟨⟨⟨⟨⟨⟨h1, h2⟩, h3⟩, h4⟩, h5⟩, h6⟩, h7⟩, h8⟩ := h
  unfold snucPayload parseSnucPayload
  simp only [List.append_assoc, List.cons_append, List.nil_append]
  rw [rBE_append 4 idxs.length _ (by simpa [u32lim] using h1), Option.some_bind]
  rw [parseCount_append (rBE 4) (beBytes 4) idxs _
    (fun a ha rr => rBE_append 4 a rr (by simpa [u32lim] using h2 a ha)), Option.some_bind]
  dsimp only
  rw [rBE_append 4 w _ (by simpa [u32lim] using h3), Option.some_bind]
  rw [rBE_append 4 hh _ (by simpa [u32lim] using h4), Option.some_bind]
  rw [← h5]
  rw [parseCount_append (rBE 4) (beBytes 4) gains _
    (fun a ha rr => rBE_append 4 a rr (by simpa [u32lim] using h7 a ha)), Option.some_bind]
  rw [show gains.length = offs.length from h5.trans h6.symm]
  rw [parseCount_append (rBE 4) (beBytes 4) offs r
    (fun a ha rr => rBE_append 4 a rr (by simpa [u32lim] using h8 a ha)), Option.some_bind]
  cases app <;> rfl

theorem parseClocPayload_append (b : ClocBox) (r : List Nat) (h : clocOk b = true) :
    parseClocPayload (clocPayload b ++ r) = some (b, r) := by
  obtain ⟨loc⟩ := b
  simp only [clocOk, decide_eq_true_eq] at h
  unfold clocPayload parseClocPayload
  dsimp only
  rw [Nat.mod_eq_of_lt (by omega)]
  simp [h]

theorem parseVersionFlags_append (P : List Nat) :
    parseVersionFlags (beBytes 4 0 ++ P) = some P := rfl

theorem parseBox_wrapFullBox (tag : Nat) (P : List Nat) (htag : tag < u32lim)
    (hsz : 12 + P.length < u32lim) (hne : ¬ tag = cmpdTag) :
    parseBox (wrapFullBox tag P) = dispatchFull tag P := by
  unfold parseBox wrapFullBox
  simp only [List.append_assoc]
  rw [rBE_append 4 (12 + P.length) _ (by simpa [u32lim] using hsz), Option.some_bind]
  rw [if_pos (by simp [beBytes_length]; omega)]
  rw [rBE_append 4 tag _ (by simpa [u32lim] using htag), Option.some_bind]
  rw [if_neg hne]
  rw [parseVersionFlags_append, Option.some_bind]

theorem parseBox_writeBox (B : DescBox) (h : boxOk B = true) :
    parseBox (writeBox B) = some B := by
  simp only [boxOk, Bool.and_eq_true, decide_eq_true_eq] at h
  obtain ⟨hok, hsz⟩ := h
  cases B with
  | cmpd cs =>
    simp only [payloadOk] at hok
    simp only [writeBox, wrapBox, List.length_append, beBytes_length] at hsz
    show parseBox (wrapBox cmpdTag (cmpdPayload cs)) = some (.cmpd cs)
    unfold parseBox wrapBox
    simp only [List.append_assoc]
    rw [rBE_append 4 (8 + (cmpdPayload cs).length) _ (by simpa [u32lim] using hsz),
      Option.some_bind]
    rw [if_pos (by simp [beBytes_length]; omega)]
    rw [rBE_append 4 cmpdTag _ (by decide), Option.some_bind]
    rw [if_pos rfl]
    have hp := parseCmpdPayload_append cs [] hok
    rw [List.append_nil] at hp
    rw [hp, Option.some_bind, if_pos rfl]
  | uncC b =>
    simp only [payloadOk] at hok
    simp only [writeBox, wrapFullBox, List.length_append, beBytes_length] at hsz
    show parseBox (wrapFullBox uncCTag (uncCPayload b)) = some (.uncC b)
    rw [parseBox_wrapFullBox _ _ (by decide) (by simp only [u32lim] at *; omega) (by decide)]
    unfold dispatchFull
    rw [if_pos rfl]
    have hp := parseUncCPayload_append b [] hok
    rw [List.append_nil] at hp
    rw [hp, Option.some_bind, if_pos rfl]
  | cmpC b =>
    simp only [payloadOk] at hok
    simp only [writeBox, wrapFullBox, List.length_append, beBytes_length] at hsz
    show parseBox (wrapFullBox cmpCTag (cmpCPayload b)) = some (.cmpC b)
    rw [parseBox_wrapFullBox _ _ (by decide) (by simp only [u32lim] at *; omega) (by decide)]
    unfold dispatchFull
    rw [if_neg (by decide), if_pos rfl]
    have hp := parseCmpCPayload_append b [] hok
    rw [List.append_nil] at hp
    rw [hp, Option.some_bind, if_pos rfl]
  | icef b =>
    simp only [payloadOk] at hok
    simp only [writeBox, wrapFullBox, List.length_append, beBytes_length] at hsz
    show parseBox (wrapFullBox icefTag (icefPayload b)) = some (.icef b)
    rw [parseBox_wrapFullBox _ _ (by decide) (by simp only [u32lim] at *; omega) (by decide)]
    unfold dispatchFull
    rw [if_neg (by decide), if_neg (by decide), if_pos rfl]
    have hp := parseIcefPayload_append b [] hok
    rw [List.append_nil] at hp
    rw [hp, Option.some_bind, if_pos rfl]
  | cpat b =>
    simp only [payloadOk] at hok
    simp only [writeBox, wrapFullBox, List.length_append, beBytes_length] at hsz
    show parseBox (wrapFullBox cpatTag (cpatPayload b)) = some (.cpat b)
    rw [parseBox_wrapFullBox _ _ (by decide) (by simp only [u32lim] at *; omega) (by decide)]
    unfold dispatchFull
    rw [if_neg (by decide), if_neg (by decide), if_neg (by decide), if_pos rfl]
    have hp := parseCpatPayload_append b [] hok
    rw [List.append_nil] at hp
    rw [hp, Option.some_bind, if_pos rfl]
  | splz b =>
    simp only [payloadOk] at hok
    simp only [writeBox, wrapFullBox, List.length_append, beBytes_length] at hsz
    show parseBox (wrapFullBox splzTag (splzPayload b)) = some (.splz b)
    rw [parseBox_wrapFullBox _ _ (by decide) (by simp only [u32lim] at *; omega) (by decide)]
    unfold dispatchFull
    rw [if_neg (by decide), if_neg (by decide), if_neg (by decide), if_neg (by decide),
      if_pos rfl]
    have hp := parseSplzPayload_append b [] hok
    rw [List.append_nil] at hp
    rw [hp, Option.some_bind, if_pos rfl]
  | sbpm b =>
    simp only [payloadOk] at hok
    simp only [writeBox, wrapFullBox, List.length_append, beBytes_length] at hsz
    show parseBox (wrapFullBox sbpmTag (sbpmPayload b)) = some (.sbpm b)
    rw [parseBox_wrapFullBox _ _ (by decide) (by simp only [u32lim] at *; omega) (by decide)]
    unfold dispatchFull
    rw [if_neg (by decide), if_neg (by decide), if_neg (by decide), if_neg (by decide),
      if_neg (by decide), if_pos rfl]
    have hp := parseSbpmPayload_append b [] hok
    rw [List.append_nil] at hp
    rw [hp, Option.some_bind, if_pos rfl]
  | snuc b =>
    simp only [payloadOk] at hok
    simp only [writeBox, wrapFullBox, List.length_append, beBytes_length] at hsz
    show parseBox (wrapFullBox snucTag (snucPayload b)) = some (.snuc b)
    rw [parseBox_wrapFullBox _ _ (by decide) (by simp only [u32lim] at *; omega) (by decide)]
    unfold dispatchFull
    rw [if_neg (by decide), if_neg (by decide), if_neg (by decide), if_neg (by decide),
      if_neg (by decide), if_neg (by decide), if_pos rfl]
    have hp := parseSnucPayload_append b [] hok
    rw [List.append_nil] at hp
    rw [hp, Option.some_bind, if_pos rfl]
  | cloc b =>
    simp only [payloadOk] at hok
    simp only [writeBox, wrapFullBox, List.length_append, beBytes_length] at hsz
    show parseBox (wrapFullBox clocTag (clocPayload b)) = some (.cloc b)
    rw [parseBox_wrapFullBox _ _ (by decide) (by simp only [u32lim] at *; omega) (by decide)]
    unfold dispatchFull
    rw [if_neg (by decide), if_neg (by decide), if_neg (by decide), if_neg (by decide),
      if_neg (by decide), if_neg (by decide), if_neg (by decide), if_pos rfl]
    have hp := parseClocPayload_append b [] hok
    rw [List.append_nil] at hp
    rw [hp, Option.some_bind, if_pos rfl]

/-- C1: for every canonical descriptor box value `B` of the types cmpd, uncC,
cmpC, icef, cpat, splz, sbpm, snuc, cloc, parsing the bytes produced by
serializing `B` yields `B` again, and re-serializing the parse of any byte
string produced by this codec yields exactly the same byte string. -/
theorem C1_descriptor_box_roundtrip (B : DescBox) (h : boxOk B = true) :
    parseBox (writeBox B) = some B ∧
      ∀ bs : List Nat, bs = writeBox B → (parseBox bs).map writeBox = some bs := by
  have main := parseBox_writeBox B h
  refine ⟨main, ?_⟩
  rintro bs rfl
  rw [main]
  rfl

/-- Concrete instance of C1 at the `splz` box of the repository's unit test
(2×1 pattern, components 0 and 1, angles 45° and 90°). -/
theorem C1_descriptor_box_roundtrip_witness :
    boxOk (DescBox.splz ⟨[0, 1], 2, 1, [0x42340000, 0x42B40000]⟩) = true ∧
      parseBox (writeBox (DescBox.splz ⟨[0, 1], 2, 1, [0x42340000, 0x42B40000]⟩)) =
        some (DescBox.splz ⟨[0, 1], 2, 1, [0x42340000, 0x42B40000]⟩) :=
  ⟨by decide, (C1_descriptor_box_roundtrip _ (by decide)).1⟩

/-! ## Component-interleave encoder (`unc_encoder_component_interleave.cc`) -/

/-- The pixel-image channels relevant to the component-interleave encoder;
only `Cb`/`Cr` influence plane sizing. -/
inductive Channel
  | Y
  | Cb
  | Cr
  | R
  | G
  | B
  | Alpha
  | FilterArray
deriving DecidableEq

/-- The chroma sampling modes the encoder selects from the image's chroma
format (`sampling_mode_420`, `sampling_mode_422`, else no subsampling). -/
inductive Sampling
  | noSub
  | s422
  | s420
deriving DecidableEq

/-- One source component as the encoder constructor records it: its channel,
bits per pixel, and its plane as a list of sample rows. -/
structure EncComponent where
  channel : Channel
  bpp : Nat
  rows : List (List Nat)

/-- A source pixel image for `encode_tile`: logical tile size, chroma
sampling, and the component planes. -/
structure EncImage where
  width : Nat
  height : Nat
  sampling : Sampling
  comps : List EncComponent

def bytesPerPixel (bpp : Nat) : Nat := (bpp + 7) / 8

/-- Plane dimensions of a component for a `w × h` tile: 4:2:0 halves both
chroma dimensions, 4:2:2 halves only chroma width (rounding up), exactly as
`compute_tile_data_size_bytes` adjusts them. -/
def chromaDims (s : Sampling) (ch : Channel) (w h : Nat) : Nat × Nat :=
  if ch = Channel.Cb ∨ ch = Channel.Cr then
    match s with
    | .s420 => ((w + 1) / 2, (h + 1) / 2)
    | .s422 => ((w + 1) / 2, h)
    | .noSub => (w, h)
  else (w, h)

/-- `unc_encoder_component_interleave::compute_tile_data_size_bytes`. -/
def compute_tile_data_size_bytes (img : EncImage) (tw th : Nat) : Nat :=
  (img.comps.map fun c =>
    let d := chromaDims img.sampling c.channel tw th
    let rb := if c.bpp % 8 = 0 then d.1 * bytesPerPixel c.bpp else (d.1 * c.bpp + 7) / 8
    rb * d.2).sum

/-- Little-endian bytes of one sample, as the byte-aligned path's row
`memcpy` reads them from a little-endian host buffer. -/
def leBytes : Nat → Nat → List Nat
  | 0, _ => []
  | w + 1, v => v % 256 :: leBytes w (v / 256)

theorem leBytes_length (w v : Nat) : (leBytes w v).length = w := by
  induction w generalizing v with
  | zero => rfl
  | succ w ih => simp [leBytes, ih]

def encodeRowAligned (bpp : Nat) (row : List Nat) : List Nat :=
  (row.map (leBytes (bytesPerPixel bpp))).flatten

/-- The `while (accumulated_bits >= 8)` emission loop: emit the top byte and
mask the accumulator down to the remaining bits. -/
def flushBytes (acc bits : Nat) : List Nat × Nat × Nat :=
  if h : 8 ≤ bits then
    let r := flushBytes (acc % 2 ^ (bits - 8)) (bits - 8)
    (((acc >>> (bits - 8)) % 256) :: r.1, r.2)
  else ([], acc, bits)
termination_by bits
decreasing_by omega

/-- The bit-packed sample loop over one row, with the row-end flush of a
final left-justified byte. -/
def packRowAux (bpp : Nat) : List Nat → Nat → Nat → List Nat
  | [], acc, bits => if 0 < bits then [(acc <<< (8 - bits)) % 256] else []
  | s :: rest, acc, bits =>
    let st := flushBytes ((acc <<< bpp) ||| s) (bits + bpp)
    st.1 ++ packRowAux bpp rest st.2.1 st.2.2

/-- Bit-packed encoding of one row; the accumulator starts fresh (the C++
declares it inside the row loop). -/
def packRow (bpp : Nat) (row : List Nat) : List Nat := packRowAux bpp row 0 0

/-- Bytes emitted for one component: per-row `memcpy` when byte-aligned,
per-row bit packing otherwise. -/
def encodeComponent (c : EncComponent) : List Nat :=
  if c.bpp % 8 = 0 then (c.rows.map (encodeRowAligned c.bpp)).flatten
  else (c.rows.map (packRow c.bpp)).flatten

/-- `unc_encoder_component_interleave::encode_tile`: concatenate the
components' bytes in uncC order. -/
def encode_tile (img : EncImage) : List Nat :=
  (img.comps.map encodeComponent).flatten

/-- A source image the encoder accepts: each component has `bpp ∈ [1,32]` and
its plane dimensions agree with the tile size under the chroma sampling. -/
def imageWF (img : EncImage) : Bool :=
  img.comps.all fun c =>
    decide (1 ≤ c.bpp) && decide (c.bpp ≤ 32) &&
      decide (c.rows.length = (chromaDims img.sampling c.channel img.width img.height).2) &&
      c.rows.all fun r =>
        decide (r.length = (chromaDims img.sampling c.channel img.width img.height).1)

theorem flushBytes_len (acc bits : Nat) :
    (flushBytes acc bits).1.length = bits / 8 ∧ (flushBytes acc bits).2.2 = bits % 8 := by
  induction bits using Nat.strong_induction_on generalizing acc with
  | _ bits ih =>
    rw [flushBytes]
    by_cases h : 8 ≤ bits
    · simp only [dif_pos h]
      have hrec := ih (bits - 8) (by omega) (acc % 2 ^ (bits - 8))
      refine ⟨?_, ?_⟩
      · simp only [List.length_cons, hrec.1]
        omega
      · simp only [hrec.2]
        omega
    · simp only [dif_neg h]
      refine ⟨?_, ?_⟩
      · show ([] : List Nat).length = bits / 8
        simp only [List.length_nil]
        omega
      · show bits = bits % 8
        omega

theorem packRowAux_length (bpp : Nat) (row : List Nat) (acc bits : Nat) (hb : bits < 8) :
    (packRowAux bpp row acc bits).length = (bits + row.length * bpp + 7) / 8 := by
  induction row generalizing acc bits with
  | nil =>
    simp only [packRowAux, List.length_nil, Nat.zero_mul, Nat.add_zero]
    split
    · simp only [List.length_singleton]
      omega
    · simp only [List.length_nil]
      omega
  | cons s rest ih =>
    simp only [packRowAux, List.length_append, List.length_cons]
    have hf := flushBytes_len ((acc <<< bpp) ||| s) (bits + bpp)
    rw [hf.1, hf.2, ih _ _ (by omega)]
    have hm : (rest.length + 1) * bpp = rest.length * bpp + bpp := by ring
    rw [hm]
    generalize rest.length * bpp = L
    omega

theorem flatten_length_const {α : Type} (f : α → List Nat) (n : Nat) (l : List α)
    (h : ∀ a ∈ l, (f a).length = n) : ((l.map f).flatten).length = l.length * n := by
  induction l with
  | nil => simp
  | cons a t ih =>
    simp only [List.map_cons, List.flatten_cons, List.length_append, List.length_cons,
      h a (by simp), ih (fun x hx => h x (by simp [hx]))]
    ring

theorem encodeComponent_length (s : Sampling) (W H : Nat) (c : EncComponent)
    (hrows : c.rows.length = (chromaDims s c.channel W H).2)
    (hrow : ∀ r ∈ c.rows, r.length = (chromaDims s c.channel W H).1) :
    (encodeComponent c).length =
      (if c.bpp % 8 = 0 then (chromaDims s c.channel W H).1 * bytesPerPixel c.bpp
        else ((chromaDims s c.channel W H).1 * c.bpp + 7) / 8) *
        (chromaDims s c.channel W H).2 := by
  unfold encodeComponent
  by_cases ha : c.bpp % 8 = 0
  · rw [if_pos ha, if_pos ha]
    rw [flatten_length_const _ ((chromaDims s c.channel W H).1 * bytesPerPixel c.bpp) _ ?_]
    · rw [hrows]
      ring
    · intro r hr
      unfold encodeRowAligned
      rw [flatten_length_const _ (bytesPerPixel c.bpp) _ (fun a _ => leBytes_length _ a)]
      rw [hrow r hr]
  · rw [if_neg ha, if_neg ha]
    rw [flatten_length_const _ (((chromaDims s c.channel W H).1 * c.bpp + 7) / 8) _ ?_]
    · rw [hrows]
      ring
    · intro r hr
      unfold packRow
      rw [packRowAux_length c.bpp r 0 0 (by omega)]
      rw [hrow r hr, Nat.zero_add]

/-- C2: for every source pixel image the component-interleave encoder
accepts, the number of bytes `encode_tile` produces for a `W×H` tile equals
`compute_tile_data_size_bytes W H`: the sum over components of
`rows · bytes_per_row`, with 4:2:0 halving both chroma plane dimensions,
4:2:2 halving only chroma width, `bytes_per_row = W · ceil(bpp/8)` for
byte-aligned components and `ceil(W·bpp/8)` for bit-packed ones. -/
theorem C2_encode_tile_size (img : EncImage) (h : imageWF img = true) :
    (encode_tile img).length = compute_tile_data_size_bytes img img.width img.height := by
  simp only [imageWF, List.all_eq_true, Bool.and_eq_true, decide_eq_true_eq] at h
  unfold encode_tile compute_tile_data_size_bytes
  rw [List.length_flatten, List.map_map]
  refine congrArg List.sum (List.map_congr_left fun c hc => ?_)
  obtain ⟨⟨⟨hb1, hb2⟩, hr⟩, hrow⟩ := h c hc
  have := encodeComponent_length img.sampling img.width img.height c hr
    (fun r hrr => hrow r hrr)
  simpa using this

/-- Concrete instance of C2: a 3×2 YCbCr 4:2:0 image with a byte-aligned
8-bit luma plane and bit-packed 4-bit chroma planes. -/
theorem C2_encode_tile_size_witness :
    imageWF ⟨3, 2, Sampling.s420,
        [⟨Channel.Y, 8, [[1, 2, 3], [4, 5, 6]]⟩,
         ⟨Channel.Cb, 4, [[7, 8]]⟩,
         ⟨Channel.Cr, 4, [[9, 10]]⟩]⟩ = true ∧
      (encode_tile ⟨3, 2, Sampling.s420,
        [⟨Channel.Y, 8, [[1, 2, 3], [4, 5, 6]]⟩,
         ⟨Channel.Cb, 4, [[7, 8]]⟩,
         ⟨Channel.Cr, 4, [[9, 10]]⟩]⟩).length =
      compute_tile_data_size_bytes ⟨3, 2, Sampling.s420,
        [⟨Channel.Y, 8, [[1, 2, 3], [4, 5, 6]]⟩,
         ⟨Channel.Cb, 4, [[7, 8]]⟩,
         ⟨Channel.Cr, 4, [[9, 10]]⟩]⟩ 3 2 :=
  ⟨by decide, C2_encode_tile_size _ (by decide)⟩

theorem drop_append_len (l x : List Nat) (k : Nat) :
    (l ++ x).drop (l.length + k) = x.drop k := by
  induction l with
  | nil => simp
  | cons a t ih =>
    simp only [List.cons_append, List.length_cons]
    rw [show t.length + 1 + k = (t.length + k) + 1 by omega]
    simp [ih]

theorem flatten_drop_take (L : List (List Nat)) (n y : Nat)
    (h : ∀ l ∈ L, l.length = n) (hy : y < L.length) :
    (L.flatten.drop (y * n)).take n = L[y] := by
  induction L generalizing y with
  | nil => simp at hy
  | cons l t ih =>
    cases y with
    | zero =>
      simp only [List.flatten_cons, Nat.zero_mul, List.drop_zero, List.getElem_cons_zero]
      rw [← h l (by simp)]
      exact List.take_left l t.flatten
    | succ y =>
      simp only [List.flatten_cons, List.getElem_cons_succ]
      have hstep : (l ++ t.flatten).drop ((y + 1) * n) = t.flatten.drop (y * n) := by
        rw [show (y + 1) * n = l.length + y * n by rw [h l (by simp)]; ring]
        exact drop_append_len l t.flatten (y * n)
      rw [hstep, ih y (fun x hx => h x (by simp [hx])) (by simpa using hy)]

theorem packRowAux_last (bpp : Nat) (row : List Nat) (acc bits : Nat) (hb : bits < 8)
    (hrem : (bits + row.length * bpp) % 8 ≠ 0) :
    ∃ a ys, packRowAux bpp row acc bits
        = ys ++ [(a <<< (8 - (bits + row.length * bpp) % 8)) % 256]
      ∧ ys.length = (bits + row.length * bpp) / 8 := by
  induction row generalizing acc bits with
  | nil =>
    simp only [List.length_nil, Nat.zero_mul, Nat.add_zero] at hrem ⊢
    have h0 : 0 < bits := by omega
    refine ⟨acc, [], ?_, by simp; omega⟩
    simp only [packRowAux, if_pos h0, List.nil_append]
    rw [Nat.mod_eq_of_lt hb]
  | cons s rest ih =>
    have hcons : bits + (s :: rest).length * bpp = bits + bpp + rest.length * bpp := by
      simp only [List.length_cons]
      ring
    rw [hcons] at hrem ⊢
    have hf := flushBytes_len ((acc <<< bpp) ||| s) (bits + bpp)
    have hrem' : ((bits + bpp) % 8 + rest.length * bpp) % 8 ≠ 0 := by
      generalize rest.length * bpp = L at hrem ⊢
      omega
    obtain ⟨a, ys, hEq, hLen⟩ :=
      ih ((flushBytes ((acc <<< bpp) ||| s) (bits + bpp)).2.1) ((bits + bpp) % 8)
        (by omega) hrem'
    refine ⟨a, (flushBytes ((acc <<< bpp) ||| s) (bits + bpp)).1 ++ ys, ?_, ?_⟩
    · simp only [packRowAux]
      rw [hf.2, hEq, List.append_assoc]
      have hsh : ((bits + bpp) % 8 + rest.length * bpp) % 8
          = (bits + bpp + rest.length * bpp) % 8 := by
        generalize rest.length * bpp = L
        omega
      rw [hsh]
    · rw [List.length_append, hf.1, hLen]
      generalize rest.length * bpp = L
      omega

theorem shiftLeft_mod256_mod (a k : Nat) (hk : k ≤ 8) :
    ((a <<< k) % 256) % 2 ^ k = 0 := by
  rw [Nat.shiftLeft_eq a k]
  rw [show (256 : Nat) = 2 ^ (8 - k) * 2 ^ k by
    rw [← pow_add, show 8 - k + k = 8 by omega]; norm_num]
  rw [Nat.mul_mod_mul_right]
  exact Nat.mul_mod_left _ _

/-- C3: in the bit-packed path, the bytes emitted for row `y` are exactly
`packRow` of row `y`'s samples (the accumulator is reset at every row start,
so bits never straddle rows), and when `W·bpp` is not a byte multiple the row
ends in exactly one additional byte holding the remaining bits left-justified
with zero bits in its unused least-significant positions. -/
theorem C3_bitpack_row_locality (c : EncComponent) (W y : Nat) (hbpp : c.bpp % 8 ≠ 0)
    (hW : ∀ r ∈ c.rows, r.length = W) (hy : y < c.rows.length) :
    (((encodeComponent c).drop (y * ((W * c.bpp + 7) / 8))).take ((W * c.bpp + 7) / 8)
        = packRow c.bpp c.rows[y])
    ∧ ((W * c.bpp) % 8 ≠ 0 →
        ∃ a ys, packRow c.bpp c.rows[y]
            = ys ++ [(a <<< (8 - (W * c.bpp) % 8)) % 256]
          ∧ ys.length = W * c.bpp / 8
          ∧ ((a <<< (8 - (W * c.bpp) % 8)) % 256) % 2 ^ (8 - (W * c.bpp) % 8) = 0) := by
  constructor
  · unfold encodeComponent
    rw [if_neg hbpp]
    have hlen : ∀ l ∈ c.rows.map (packRow c.bpp), l.length = (W * c.bpp + 7) / 8 := by
      intro l hl
      obtain ⟨r, hr, rfl⟩ := List.mem_map.mp hl
      unfold packRow
      rw [packRowAux_length c.bpp r 0 0 (by omega), hW r hr, Nat.zero_add]
    have := flatten_drop_take (c.rows.map (packRow c.bpp)) ((W * c.bpp + 7) / 8) y hlen
      (by simpa using hy)
    rw [this]
    simp
  · intro hrem
    have hrow : (c.rows[y]).length = W := hW _ (by simp)
    obtain ⟨a, ys, hEq, hLen⟩ := packRowAux_last c.bpp c.rows[y] 0 0 (by omega)
      (by rw [hrow, Nat.zero_add]; exact hrem)
    rw [hrow, Nat.zero_add] at hEq hLen
    exact ⟨a, ys, hEq, hLen, shiftLeft_mod256_mod a _ (by omega)⟩

/-- Concrete instance of C3: a 3-bit component with two rows of width 2;
each row packs to one byte whose two low bits are zero padding. -/
theorem C3_bitpack_row_locality_witness :
    ((((encodeComponent ⟨Channel.Y, 3, [[1, 2], [3, 4]]⟩).drop
          (1 * ((2 * 3 + 7) / 8))).take ((2 * 3 + 7) / 8)
        = packRow 3 [3, 4])
      ∧ ∃ a ys, packRow 3 [3, 4]
            = ys ++ [(a <<< (8 - (2 * 3) % 8)) % 256]
          ∧ ys.length = 2 * 3 / 8
          ∧ ((a <<< (8 - (2 * 3) % 8)) % 256) % 2 ^ (8 - (2 * 3) % 8) = 0) := by
  have h := C3_bitpack_row_locality ⟨Channel.Y, 3, [[1, 2], [3, 4]]⟩ 2 1 (by decide)
    (by decide) (by decide)
  exact ⟨h.1, h.2 (by decide)⟩

/-! ## Bayer bilinear demosaic (`bayer_bilinear.cc`) -/

/-- `component_type_to_rgb_index`: red/green/blue map to output channels
0/1/2, every other component type (including Y) yields −1. -/
def component_type_to_rgb_index (t : Nat) : Int :=
  if t = 4 then 0
  else if t = 5 then 1
  else if t = 6 then 2
  else -1

/-- Errors of `convert_colorspace` relevant here. -/
inductive ConvError
  | internalErr
  | unsupported
deriving DecidableEq

/-- The `pattern_channel` table construction: resolve every pattern position
through the image's component types, failing on the first unknown type. -/
def resolveChannels (compType : Nat → Nat) : List Nat → Option (List Nat)
  | [] => some []
  | i :: rest =>
    if component_type_to_rgb_index (compType i) < 0 then none
    else (resolveChannels compType rest).bind fun l =>
      some ((component_type_to_rgb_index (compType i)).toNat :: l)

/-- `pattern_channel[py*pw+px]`. -/
def patchAt (pw : Nat) (chans : List Nat) (px py : Nat) : Nat :=
  chans.getD (py * pw + px) 0

/-- `(((z % p) + p) % p` on C++ ints (Lean's `Int` `%` is also truncated
toward zero, so the expression is modelled verbatim). -/
def wrapCoord (p : Nat) (z : Int) : Nat := ((z % (p : Int) + (p : Int)) % (p : Int)).toNat

/-- The `dy`/`dx` enumeration from `-(p-1)` to `p-1` in loop order. -/
def neighborRange (p : Nat) : List Int :=
  (List.range (2 * p - 1)).map fun i => (i : Int) - ((p : Int) - 1)

def offsetGrid (pw ph : Nat) : List (Int × Int) :=
  ((neighborRange ph).map fun dy => (neighborRange pw).map fun dx => (dx, dy)).flatten

/-- The precomputed neighbor-offset table for pattern position `(px,py)` and
channel `c`: the single offset `(0,0)` for the position's own channel,
otherwise all non-zero offsets whose periodic neighbor provides `c`. -/
def neighbor_offsets (pw ph : Nat) (chans : List Nat) (px py c : Nat) : List (Int × Int) :=
  if patchAt pw chans px py = c then [(0, 0)]
  else (offsetGrid pw ph).filter fun d =>
    decide (¬(d.1 = 0 ∧ d.2 = 0) ∧
      patchAt pw chans (wrapCoord pw ((px : Int) + d.1)) (wrapCoord ph ((py : Int) + d.2)) = c)

/-- The per-channel accumulation loop: skip out-of-image neighbors, sum the
rest and count them. -/
def demosaic_sums (inp : Nat → Nat → Nat) (W H x y : Nat)
    (offs : List (Int × Int)) : Nat × Nat :=
  offs.foldl (fun sc d =>
    if (x : Int) + d.1 < 0 ∨ (W : Int) ≤ (x : Int) + d.1 ∨
        (y : Int) + d.2 < 0 ∨ (H : Int) ≤ (y : Int) + d.2 then sc
    else (sc.1 + inp ((y : Int) + d.2).toNat ((x : Int) + d.1).toNat, sc.2 + 1)) (0, 0)

/-- One output value of the demosaic kernel at pixel `(x,y)`, channel `c`. -/
def demosaic_pixel (inp : Nat → Nat → Nat) (W H pw ph : Nat) (chans : List Nat)
    (x y c : Nat) : Nat :=
  let sc := demosaic_sums inp W H x y (neighbor_offsets pw ph chans (x % pw) (y % ph) c)
  if 0 < sc.2 then (sc.1 + sc.2 / 2) / sc.2 else 0

/-- `Op_bayer_bilinear_to_RGB24_32::convert_colorspace` without the pixel
loop: dimension check, channel resolution, then the demosaic kernel. -/
def convert_colorspace_model (W H pw ph : Nat) (compType : Nat → Nat) (patIdx : List Nat)
    (inp : Nat → Nat → Nat) : Except ConvError (Nat → Nat → Nat → Nat) :=
  if pw = 0 ∨ ph = 0 then .error .internalErr
  else
    match resolveChannels compType patIdx with
    | none => .error .unsupported
    | some chans => .ok fun x y c => demosaic_pixel inp W H pw ph chans x y c

/-- Spec-side view of the in-bounds neighbor subset at `(x,y)`. -/
def inBoundsOffsets (W H x y : Nat) (offs : List (Int × Int)) : List (Int × Int) :=
  offs.filter fun d =>
    decide (0 ≤ (x : Int) + d.1 ∧ (x : Int) + d.1 < (W : Int) ∧
      0 ≤ (y : Int) + d.2 ∧ (y : Int) + d.2 < (H : Int))

/-- Spec-side view of the samples read at those neighbors. -/
def offsetSamples (inp : Nat → Nat → Nat) (x y : Nat) (offs : List (Int × Int)) : List Nat :=
  offs.map fun d => inp ((y : Int) + d.2).toNat ((x : Int) + d.1).toNat

theorem demosaic_sums_aux (inp : Nat → Nat → Nat) (W H x y : Nat)
    (offs : List (Int × Int)) (s0 c0 : Nat) :
    offs.foldl (fun sc d =>
      if (x : Int) + d.1 < 0 ∨ (W : Int) ≤ (x : Int) + d.1 ∨
          (y : Int) + d.2 < 0 ∨ (H : Int) ≤ (y : Int) + d.2 then sc
      else (sc.1 + inp ((y : Int) + d.2).toNat ((x : Int) + d.1).toNat, sc.2 + 1)) (s0, c0)
      = (s0 + (offsetSamples inp x y (inBoundsOffsets W H x y offs)).sum,
          c0 + (inBoundsOffsets W H x y offs).length) := by
  induction offs generalizing s0 c0 with
  | nil => simp [inBoundsOffsets, offsetSamples]
  | cons d rest ih =>
    simp only [List.foldl_cons]
    by_cases hc : (x : Int) + d.1 < 0 ∨ (W : Int) ≤ (x : Int) + d.1 ∨
        (y : Int) + d.2 < 0 ∨ (H : Int) ≤ (y : Int) + d.2
    · rw [if_pos hc, ih]
      have hpred : ¬(0 ≤ (x : Int) + d.1 ∧ (x : Int) + d.1 < (W : Int) ∧
          0 ≤ (y : Int) + d.2 ∧ (y : Int) + d.2 < (H : Int)) := by omega
      simp [inBoundsOffsets, offsetSamples, List.filter_cons, hpred]
    · rw [if_neg hc, ih]
      have hpred : (0 ≤ (x : Int) + d.1 ∧ (x : Int) + d.1 < (W : Int) ∧
          0 ≤ (y : Int) + d.2 ∧ (y : Int) + d.2 < (H : Int)) := by omega
      simp only [inBoundsOffsets, offsetSamples, List.filter_cons]
      rw [if_pos (by simp [hpred])]
      simp only [List.map_cons, List.sum_cons, List.length_cons, Prod.mk.injEq]
      constructor
      · omega
      · omega

theorem demosaic_sums_spec (inp : Nat → Nat → Nat) (W H x y : Nat)
    (offs : List (Int × Int)) :
    demosaic_sums inp W H x y offs =
      ((offsetSamples inp x y (inBoundsOffsets W H x y offs)).sum,
        (inBoundsOffsets W H x y offs).length) := by
  unfold demosaic_sums
  rw [demosaic_sums_aux]
  simp

theorem offsetSamples_length (inp : Nat → Nat → Nat) (x y : Nat) (offs : List (Int × Int)) :
    (offsetSamples inp x y offs).length = offs.length := by
  simp [offsetSamples]

/-- C4: at every in-bounds output pixel and channel, the demosaic operator
produces `(sum + count/2) / count` over the in-bounds precomputed periodic
neighbors (`0` when the count is zero); out-of-image neighbors are skipped,
the value depends only on samples inside `[0,W)×[0,H)`, and the output never
exceeds the maximal sample value. -/
theorem C4_demosaic_pixel_spec (inp : Nat → Nat → Nat) (W H pw ph : Nat)
    (chans : List Nat) (x y c maxval : Nat) (_hx : x < W) (_hy : y < H)
    (hbound : ∀ yy xx, yy < H → xx < W → inp yy xx ≤ maxval) :
    (demosaic_pixel inp W H pw ph chans x y c =
      (if 0 < (inBoundsOffsets W H x y
            (neighbor_offsets pw ph chans (x % pw) (y % ph) c)).length then
        ((offsetSamples inp x y (inBoundsOffsets W H x y
              (neighbor_offsets pw ph chans (x % pw) (y % ph) c))).sum
          + (inBoundsOffsets W H x y
              (neighbor_offsets pw ph chans (x % pw) (y % ph) c)).length / 2)
        / (inBoundsOffsets W H x y
            (neighbor_offsets pw ph chans (x % pw) (y % ph) c)).length
      else 0))
    ∧ (∀ inp' : Nat → Nat → Nat, (∀ yy xx, yy < H → xx < W → inp yy xx = inp' yy xx) →
        demosaic_pixel inp W H pw ph chans x y c = demosaic_pixel inp' W H pw ph chans x y c)
    ∧ demosaic_pixel inp W H pw ph chans x y c ≤ maxval := by
  have formula : ∀ g : Nat → Nat → Nat, demosaic_pixel g W H pw ph chans x y c =
      (if 0 < (inBoundsOffsets W H x y
            (neighbor_offsets pw ph chans (x % pw) (y % ph) c)).length then
        ((offsetSamples g x y (inBoundsOffsets W H x y
              (neighbor_offsets pw ph chans (x % pw) (y % ph) c))).sum
          + (inBoundsOffsets W H x y
              (neighbor_offsets pw ph chans (x % pw) (y % ph) c)).length / 2)
        / (inBoundsOffsets W H x y
            (neighbor_offsets pw ph chans (x % pw) (y % ph) c)).length
      else 0) := by
    intro g
    unfold demosaic_pixel
    rw [demosaic_sums_spec]
  refine ⟨formula inp, ?_, ?_⟩
  · intro inp' hagree
    rw [formula inp, formula inp']
    have hsamp : offsetSamples inp x y (inBoundsOffsets W H x y
          (neighbor_offsets pw ph chans (x % pw) (y % ph) c))
        = offsetSamples inp' x y (inBoundsOffsets W H x y
          (neighbor_offsets pw ph chans (x % pw) (y % ph) c)) := by
      unfold offsetSamples
      refine List.map_congr_left fun d hd => ?_
      have hp := of_decide_eq_true (List.mem_filter.mp hd).2
      exact hagree _ _ (by omega) (by omega)
    rw [hsamp]
  · rw [formula inp]
    set inb := inBoundsOffsets W H x y (neighbor_offsets pw ph chans (x % pw) (y % ph) c)
      with hinb
    by_cases hlen : 0 < inb.length
    · rw [if_pos hlen]
      have hb : ∀ v ∈ offsetSamples inp x y inb, v ≤ maxval := by
        intro v hv
        obtain ⟨d, hd, rfl⟩ := List.mem_map.mp hv
        have hp := of_decide_eq_true (List.mem_filter.mp hd).2
        exact hbound _ _ (by omega) (by omega)
      have hsum : (offsetSamples inp x y inb).sum ≤ inb.length * maxval := by
        have := List.sum_le_card_nsmul (offsetSamples inp x y inb) maxval hb
        rwa [smul_eq_mul, offsetSamples_length] at this
      have hlt : ((offsetSamples inp x y inb).sum + inb.length / 2) / inb.length
          < maxval + 1 := by
        apply Nat.div_lt_of_lt_mul
        calc (offsetSamples inp x y inb).sum + inb.length / 2
            < inb.length * maxval + inb.length := by omega
          _ = inb.length * (maxval + 1) := by ring
      omega
    · rw [if_neg hlen]
      exact Nat.zero_le _

/-- Concrete instance of C4: an all-255 4×4 filter-array plane with an RGGB
pattern; every output is the 255 average, within the 8-bit range. -/
theorem C4_demosaic_pixel_spec_witness :
    (demosaic_pixel (fun _ _ => 255) 4 4 2 2 [0, 1, 1, 2] 1 2 0 =
      (if 0 < (inBoundsOffsets 4 4 1 2
            (neighbor_offsets 2 2 [0, 1, 1, 2] (1 % 2) (2 % 2) 0)).length then
        ((offsetSamples (fun _ _ => 255) 1 2 (inBoundsOffsets 4 4 1 2
              (neighbor_offsets 2 2 [0, 1, 1, 2] (1 % 2) (2 % 2) 0))).sum
          + (inBoundsOffsets 4 4 1 2
              (neighbor_offsets 2 2 [0, 1, 1, 2] (1 % 2) (2 % 2) 0)).length / 2)
        / (inBoundsOffsets 4 4 1 2
            (neighbor_offsets 2 2 [0, 1, 1, 2] (1 % 2) (2 % 2) 0)).length
      else 0))
    ∧ demosaic_pixel (fun _ _ => 255) 4 4 2 2 [0, 1, 1, 2] 1 2 0 ≤ 255 := by
  have h := C4_demosaic_pixel_spec (fun _ _ => 255) 4 4 2 2 [0, 1, 1, 2] 1 2 0 255
    (by decide) (by decide) (fun _ _ _ _ => Nat.le_refl 255)
  exact ⟨h.1, h.2.2⟩

theorem rgb_index_neg_iff (t : Nat) :
    component_type_to_rgb_index t < 0 ↔ ¬(t = 4 ∨ t = 5 ∨ t = 6) := by
  unfold component_type_to_rgb_index
  split_ifs with h1 h2 h3 <;> simp_all

theorem resolveChannels_none_iff (compType : Nat → Nat) (l : List Nat) :
    resolveChannels compType l = none ↔
      ∃ i ∈ l, component_type_to_rgb_index (compType i) < 0 := by
  induction l with
  | nil => simp [resolveChannels]
  | cons i rest ih =>
    by_cases hi : component_type_to_rgb_index (compType i) < 0
    · simp [resolveChannels, hi]
    · simp only [resolveChannels, if_neg hi]
      constructor
      · intro h
        rcases hr : resolveChannels compType rest with _ | v
        · exact (ih.mp hr).elim fun j hj => ⟨j, by simp [hj.1], hj.2⟩
        · rw [hr] at h
          simp at h
      · rintro ⟨j, hj, hneg⟩
        rcases List.mem_cons.mp hj with rfl | hjr
        · exact absurd hneg hi
        · rw [ih.mpr ⟨j, hjr, hneg⟩]
          rfl

theorem resolveChannels_some (compType : Nat → Nat) (l : List Nat)
    (h : ∀ i ∈ l, ¬ component_type_to_rgb_index (compType i) < 0) :
    resolveChannels compType l
      = some (l.map fun i => (component_type_to_rgb_index (compType i)).toNat) := by
  induction l with
  | nil => simp [resolveChannels]
  | cons i rest ih =>
    simp only [resolveChannels, if_neg (h i (by simp)), List.map_cons]
    rw [ih (fun j hj => h j (by simp [hj]))]
    rfl

/-- C5 (amended): the Bayer demosaic conversion fails with
`Unsupported_feature` exactly when the pattern references a component whose
type is outside the set red/green/blue — the component type Y is also
rejected; patterns whose positions all carry red/green/blue convert to the
demosaic kernel output. -/
theorem C5_bayer_unsupported_iff (W H pw ph : Nat) (compType : Nat → Nat)
    (patIdx : List Nat) (inp : Nat → Nat → Nat) (hpw : 1 ≤ pw) (hph : 1 ≤ ph) :
    (convert_colorspace_model W H pw ph compType patIdx inp
        = Except.error ConvError.unsupported
      ↔ ∃ i ∈ patIdx, ¬(compType i = 4 ∨ compType i = 5 ∨ compType i = 6))
    ∧ ((∀ i ∈ patIdx, compType i = 4 ∨ compType i = 5 ∨ compType i = 6) →
        convert_colorspace_model W H pw ph compType patIdx inp
          = Except.ok (fun x y c => demosaic_pixel inp W H pw ph
              (patIdx.map fun i => (component_type_to_rgb_index (compType i)).toNat) x y c)) := by
  have hdim : ¬(pw = 0 ∨ ph = 0) := by omega
  constructor
  · unfold convert_colorspace_model
    rw [if_neg hdim]
    by_cases hall : ∀ i ∈ patIdx, compType i = 4 ∨ compType i = 5 ∨ compType i = 6
    · rw [resolveChannels_some compType patIdx
        (fun i hi => by rw [rgb_index_neg_iff]; exact not_not_intro (hall i hi))]
      constructor
      · intro h
        exact absurd h (by simp)
      · rintro ⟨i, hi, hbad⟩
        exact absurd (hall i hi) hbad
    · have hex : ∃ i ∈ patIdx, component_type_to_rgb_index (compType i) < 0 := by
        push_neg at hall
        obtain ⟨i, hi, hbad⟩ := hall
        exact ⟨i, hi, (rgb_index_neg_iff _).mpr (by push_neg; exact hbad)⟩
      rw [(resolveChannels_none_iff compType patIdx).mpr hex]
      simp only [true_iff]
      push_neg at hall
      obtain ⟨i, hi, hbad⟩ := hall
      exact ⟨i, hi, by push_neg; exact hbad⟩
  · intro hall
    unfold convert_colorspace_model
    rw [if_neg hdim]
    rw [resolveChannels_some compType patIdx
      (fun i hi => by rw [rgb_index_neg_iff]; exact not_not_intro (hall i hi))]

/-- Instance of C5 at a 1×1 all-red pattern: no error, and the rejection
characterization holds. -/
theorem C5_bayer_unsupported_iff_witness :
    (convert_colorspace_model 4 4 1 1 (fun _ => 4) [0] (fun _ _ => 0)
        = Except.error ConvError.unsupported
      ↔ ∃ i ∈ [0], ¬((fun _ : Nat => 4) i = 4 ∨ (fun _ : Nat => 4) i = 5 ∨
          (fun _ : Nat => 4) i = 6)) :=
  (C5_bayer_unsupported_iff 4 4 1 1 (fun _ => 4) [0] (fun _ _ => 0)
    (by decide) (by decide)).1

/-- Counterexample to C5 as stated: a pattern whose single position carries
component type Y (the claim's allowed set includes Y) is rejected with
`Unsupported_feature` instead of being converted. -/
theorem C5_counterexample_Y :
    convert_colorspace_model 4 4 1 1 (fun _ => 1) [0] (fun _ _ => 0)
      = Except.error ConvError.unsupported := rfl

/-! ## WebVMT support (`examples/vmt.cc`) -/

/-- `nibble_to_val`: hex digit to value over ASCII codes. -/
def nibble_to_val (c : Char) : Option Nat :=
  if 48 ≤ c.toNat ∧ c.toNat ≤ 57 then some (c.toNat - 48)
  else if 97 ≤ c.toNat ∧ c.toNat ≤ 102 then some (c.toNat - 97 + 10)
  else if 65 ≤ c.toNat ∧ c.toNat ≤ 70 then some (c.toNat - 65 + 10)
  else none

/-- The `hex_to_binary` scan: `high_nibble` flag and current byte value. -/
def hexAux : List Char → Bool → Nat → List Nat
  | [], _, _ => []
  | ch :: rest, high, cur =>
    match nibble_to_val ch with
    | none => hexAux rest high cur
    | some v =>
      if high then hexAux rest false (v <<< 4)
      else (cur ||| v) :: hexAux rest true (cur ||| v)

/-- `hex_to_binary`: hex text to bytes, ignoring non-hex characters. -/
def hex_to_binary (line : List Char) : List Nat := hexAux line true 0

/-- Spec-side pairing: one byte per complete pair of hex digits, first digit
as high nibble; a final unpaired digit contributes nothing. -/
def pairBytes : List Nat → List Nat
  | a :: b :: rest => (a * 16 + b) :: pairBytes rest
  | _ => []

theorem nibble_lt (c : Char) (v : Nat) (h : nibble_to_val c = some v) : v < 16 := by
  unfold nibble_to_val at h
  split_ifs at h <;> simp_all <;> omega

theorem shiftLeft_lor_eq_add (a v k : Nat) (hv : v < 2 ^ k) :
    ((a <<< k) ||| v) = a * 2 ^ k + v := by
  apply Nat.eq_of_testBit_eq
  intro i
  rw [Nat.testBit_lor, Nat.testBit_shiftLeft]
  rw [show a * 2 ^ k + v = 2 ^ k * a + v by ring]
  rw [Nat.testBit_mul_pow_two_add a hv i]
  by_cases hik : i < k
  · have h1 : ¬ i ≥ k := by omega
    simp [hik, h1]
  · have h1 : i ≥ k := by omega
    have h2 : v.testBit i = false :=
      Nat.testBit_lt_two_pow (lt_of_lt_of_le hv (Nat.pow_le_pow_right (by norm_num) (by omega)))
    simp [hik, h1, h2]

theorem hexAux_spec (line : List Char) :
    (∀ cur, hexAux line true cur = pairBytes (line.filterMap nibble_to_val))
    ∧ ∀ a, a < 16 →
        hexAux line false (a <<< 4) = pairBytes (a :: line.filterMap nibble_to_val) := by
  induction line with
  | nil =>
    refine ⟨fun cur => rfl, fun a _ => ?_⟩
    simp [hexAux, pairBytes]
  | cons ch rest ih =>
    constructor
    · intro cur
      cases hnv : nibble_to_val ch with
      | none => simp [hexAux, hnv, List.filterMap_cons, ih.1 cur]
      | some v =>
        simp only [hexAux, hnv, if_pos rfl]
        rw [List.filterMap_cons, hnv]
        exact ih.2 v (nibble_lt ch v hnv)
    · intro a ha
      cases hnv : nibble_to_val ch with
      | none =>
        simp only [hexAux, hnv]
        rw [List.filterMap_cons, hnv]
        exact ih.2 a ha
      | some v =>
        simp only [hexAux, hnv, if_neg (Bool.false_ne_true)]
        rw [List.filterMap_cons, hnv]
        have hor : ((a <<< 4) ||| v) = a * 16 + v := by
          have := shiftLeft_lor_eq_add a v 4 (by
            have := nibble_lt ch v hnv
            omega)
          simpa using this
        rw [hor]
        simp only [pairBytes]
        rw [ih.1]

/-- C10: `hex_to_binary` emits one byte for each complete pair of hex digits
after filtering out non-hex characters, pairing digits in scan order with the
first digit as high nibble; a trailing unpaired nibble is dropped. -/
theorem C10_hex_to_binary_pairs (line : List Char) :
    hex_to_binary line = pairBytes (line.filterMap nibble_to_val) :=
  (hexAux_spec line).1 0

def BAD_VMT_TIMESTAMP : Nat := 0xFFFFFFFE

/-- One valid cue in `encode_vmt_metadata_track`, mirroring the source's
control flow: the `if/else` chain decides the emitted sample and whether the
prior payload is prepended, then `prev_ts`/`prev_metadata` are assigned
unconditionally. -/
def encode_step (prev : Nat × List Nat) (ts : Nat) (concat : List Nat) :
    (Nat × List Nat) × List (Nat × List Nat) :=
  let emitted := if ts > prev.1 then [(ts - prev.1, prev.2)] else []
  let newPayload := if ts = prev.1 then prev.2 ++ concat else concat
  ((ts, newPayload), emitted)

/-- One cue including the `BAD_VMT_TIMESTAMP` guard: a bad timestamp is
warned about and skipped without touching the retained state. -/
def encode_cue (prev : Nat × List Nat) (ts : Nat) (concat : List Nat) :
    (Nat × List Nat) × List (Nat × List Nat) :=
  if ts = BAD_VMT_TIMESTAMP then (prev, []) else encode_step prev ts concat

/-- The whole cue loop plus the terminal flush sample of duration 1.
`prev_ts` starts at 0 (the spec's prescribed initialization of the source's
uninitialized `prev_ts`). -/
def encode_run : (Nat × List Nat) → List (Nat × List Nat) → List (Nat × List Nat)
  | prev, [] => [(1, prev.2)]
  | prev, (ts, pl) :: rest =>
    (encode_cue prev ts pl).2 ++ encode_run (encode_cue prev ts pl).1 rest

/-- Spec-side cue transition, written per the amended claim: `ts > prev`
emits `(ts − prev, prev_payload)` and replaces the payload; `ts = prev`
prepends the prior payload and emits nothing; `ts < prev` emits nothing but
still replaces `prev_ts` and `prev_payload` with the new cue. -/
def vmt_step_spec (prev : Nat × List Nat) (ts : Nat) (concat : List Nat) :
    (Nat × List Nat) × List (Nat × List Nat) :=
  if ts > prev.1 then ((ts, concat), [(ts - prev.1, prev.2)])
  else if ts = prev.1 then ((ts, prev.2 ++ concat), [])
  else ((ts, concat), [])

/-- Spec-side run: bad timestamps are discarded, each valid cue steps the
state, and one terminal sample of duration 1 carries the final payload. -/
def vmt_run_spec : (Nat × List Nat) → List (Nat × List Nat) → List (Nat × List Nat)
  | prev, [] => [(1, prev.2)]
  | prev, (ts, pl) :: rest =>
    if ts = BAD_VMT_TIMESTAMP then vmt_run_spec prev rest
    else (vmt_step_spec prev ts pl).2 ++ vmt_run_spec (vmt_step_spec prev ts pl).1 rest

/-- C6 (amended): per-cue behavior of the metadata-track encoder.  On
`ts > prev_ts` one sample `(ts − prev_ts, prev_payload)` is emitted and the
payload replaced; on `ts = prev_ts` the prior payload is prepended and no
sample is emitted; on `ts < prev_ts` a warning is printed, no sample is
emitted, but `prev_ts` and `prev_payload` are nevertheless replaced by the
new cue; after end of input exactly one terminal sample of duration 1
carries `prev_payload`. -/
theorem C6_vmt_sample_emission (prev : Nat × List Nat) (ts : Nat) (concat : List Nat)
    (cues : List (Nat × List Nat)) :
    encode_step prev ts concat = vmt_step_spec prev ts concat
    ∧ encode_run prev cues = vmt_run_spec prev cues := by
  have hstep : ∀ (p : Nat × List Nat) (t : Nat) (pl : List Nat),
      encode_step p t pl = vmt_step_spec p t pl := by
    intro p t pl
    unfold encode_step vmt_step_spec
    rcases Nat.lt_trichotomy p.1 t with h | h | h
    · have h2 : ¬ t = p.1 := by omega
      rw [if_pos h, if_pos h, if_neg h2]
    · have h1 : ¬ t > p.1 := by omega
      have h2 : t = p.1 := by omega
      rw [if_neg h1, if_neg h1, if_pos h2, if_pos h2]
    · have h1 : ¬ t > p.1 := by omega
      have h2 : ¬ t = p.1 := by omega
      rw [if_neg h1, if_neg h1, if_neg h2, if_neg h2]
  refine ⟨hstep prev ts concat, ?_⟩
  induction cues generalizing prev with
  | nil => rfl
  | cons cue rest ih =>
    obtain ⟨t, pl⟩ := cue
    unfold encode_run vmt_run_spec encode_cue
    by_cases hbad : t = BAD_VMT_TIMESTAMP
    · rw [if_pos hbad, if_pos hbad]
      simpa using ih prev
    · rw [if_neg hbad, if_neg hbad, hstep]
      rw [ih]

/-- Counterexample to C6 as stated: after a cue at 1000 ms, an out-of-order
cue at 500 ms is not merely discarded — the retained `prev_ts`/`prev_payload`
are replaced, so the terminal sample carries the out-of-order cue's bytes. -/
theorem C6_out_of_order_replaces_state :
    (encode_step (1000, [1]) 500 [2]).1 = (500, [2])
    ∧ encode_run (0, []) [(1000, [1]), (500, [2])] = [(1000, []), (1, [2])] := by
  constructor
  · rfl
  · rfl

def isDigitChar (c : Char) : Bool := decide (48 ≤ c.toNat ∧ c.toNat ≤ 57)

/-- `std::stoi` on an all-digit string. -/
def digitsToNat (l : List Char) : Nat := l.foldl (fun a c => a * 10 + (c.toNat - 48)) 0

/-- Group extraction of the timestamp regex
`-?((\d*):)?(\d\d):(\d\d)(\.(\d*))?` on the body after the optional sign:
either `MM:SS` or `H*:MM:SS`, with an optional all-digit fractional tail. -/
def mainGroups (main : List Char) (fs : List Char) :
    Option (List Char × List Char × List Char × List Char) :=
  match main.splitOn ':' with
  | [mm, ss] =>
    if mm.length = 2 ∧ ss.length = 2 ∧ mm.all isDigitChar ∧ ss.all isDigitChar then
      some ([], mm, ss, fs)
    else none
  | [hh, mm, ss] =>
    if hh.all isDigitChar ∧ mm.length = 2 ∧ ss.length = 2 ∧
        mm.all isDigitChar ∧ ss.all isDigitChar then
      some (hh, mm, ss, fs)
    else none
  | _ => none

/-- Full anchored match of the timestamp regex, returning the captured
`(hh, mm, ss, fractional)` groups (`hh`/`fractional` possibly empty). -/
def vmt_groups (s : List Char) : Option (List Char × List Char × List Char × List Char) :=
  let body := if s.head? = some '-' then s.tail else s
  if body.any (fun c => c = '-') then none
  else
    match body.splitOn '.' with
    | [main] => mainGroups main []
    | [main, fs] => if fs.all isDigitChar then mainGroups main fs else none
    | _ => none

/-- `parse_vmt_timestamp`: 0 when the regex does not match, 0 for a negative
time, the sentinel when a non-empty fractional part is not exactly 3 digits,
otherwise `H·3600000 + MM·60000 + SS·1000 + fff`. -/
def parse_vmt_timestamp (s : List Char) : Nat :=
  match vmt_groups s with
  | none => 0
  | some (hh, mm, ss, fs) =>
    if s.any (fun c => c = '-') then 0
    else if fs ≠ [] ∧ fs.length ≠ 3 then BAD_VMT_TIMESTAMP
    else digitsToNat hh * 3600 * 1000 + digitsToNat mm * 60 * 1000 +
      digitsToNat ss * 1000 + (if fs = [] then 0 else digitsToNat fs)

/-- C7 (amended): the timestamp parser returns
`H·3600000 + MM·60000 + SS·1000 + fff` on a grammar match with non-negative
sign and an absent or exactly-3-digit fractional part; it returns 0 — not the
sentinel — for no-match and for negative timestamps; it returns
`BAD_VMT_TIMESTAMP = 0xFFFFFFFE` when a matched, non-negative timestamp has a
non-empty fractional part whose length is not 3; and the encoder drops a
`BAD_VMT_TIMESTAMP` cue without emitting a sample or touching its state. -/
theorem C7_parse_vmt_timestamp_spec (s : List Char) (prev : Nat × List Nat)
    (pl : List Nat) :
    (vmt_groups s = none → parse_vmt_timestamp s = 0)
    ∧ (s.any (fun c => c = '-') = true → parse_vmt_timestamp s = 0)
    ∧ (∀ hh mm ss fs, vmt_groups s = some (hh, mm, ss, fs) →
        s.any (fun c => c = '-') = false →
        ((fs ≠ [] → fs.length ≠ 3 → parse_vmt_timestamp s = BAD_VMT_TIMESTAMP)
        ∧ (fs = [] → parse_vmt_timestamp s =
            digitsToNat hh * 3600000 + digitsToNat mm * 60000 + digitsToNat ss * 1000)
        ∧ (fs.length = 3 → parse_vmt_timestamp s =
            digitsToNat hh * 3600000 + digitsToNat mm * 60000 + digitsToNat ss * 1000
              + digitsToNat fs)))
    ∧ encode_cue prev BAD_VMT_TIMESTAMP pl = (prev, []) := by
  refine ⟨?_, ?_, ?_, ?_⟩
  · intro h
    unfold parse_vmt_timestamp
    rw [h]
  · intro h
    unfold parse_vmt_timestamp
    cases hg : vmt_groups s with
    | none => rfl
    | some g =>
      obtain ⟨hh, mm, ss, fs⟩ := g
      simp [h]
  · intro hh mm ss fs hg hneg
    unfold parse_vmt_timestamp
    rw [hg]
    simp only [hneg, Bool.false_eq_true, if_false]
    refine ⟨?_, ?_, ?_⟩
    · intro h1 h2
      rw [if_pos ⟨h1, h2⟩]
    · intro h1
      rw [if_neg (by simp [h1]), if_pos h1]
      ring_nf
    · intro h1
      have hne : fs ≠ [] := by
        intro hcon
        rw [hcon] at h1
        simp at h1
      rw [if_neg (by simp [h1]), if_neg hne]
      ring_nf
  · unfold encode_cue
    rw [if_pos rfl]

/-- Instances of C7: a 1-digit fractional part yields the sentinel; a full
`HH:MM:SS.fff` timestamp yields its millisecond value. -/
theorem C7_parse_vmt_timestamp_spec_witness :
    parse_vmt_timestamp ("00:01.5".data) = BAD_VMT_TIMESTAMP
    ∧ parse_vmt_timestamp ("01:02:03.456".data) = 3723456 := by
  have h1 := C7_parse_vmt_timestamp_spec ("00:01.5".data) (0, []) []
  have h2 := C7_parse_vmt_timestamp_spec ("01:02:03.456".data) (0, []) []
  constructor
  · exact (h1.2.2.1 [] ['0', '0'] ['0', '1'] ['5'] (by decide) (by decide)).1
      (by decide) (by decide)
  · have h3 := (h2.2.2.1 ['0', '1'] ['0', '2'] ['0', '3'] ['4', '5', '6']
      (by decide) (by decide)).2.2 (by decide)
    rw [h3]
    decide

/-- Counterexample to C7 as stated: a negative timestamp returns 0, not the
sentinel `BAD_VMT_TIMESTAMP`. -/
theorem C7_negative_returns_zero :
    parse_vmt_timestamp ("-00:01".data) = 0 ∧ (0 : Nat) ≠ BAD_VMT_TIMESTAMP := by
  constructor
  · decide
  · decide

/-! ## ID allocator (`id_creator.cc`) -/

inductive IDNamespace
  | item
  | track
  | entity_group
deriving DecidableEq

/-- `IDCreator`: the unified-mode flag and four `uint32` counters, all
starting at 1. -/
structure IDCreator where
  unif : Bool
  nextItem : Nat
  nextTrack : Nat
  nextEntity : Nat
  nextGlobal : Nat
deriving DecidableEq

def initIDCreator (b : Bool) : IDCreator := ⟨b, 1, 1, 1, 1⟩

def set_unif (c : IDCreator) (flag : Bool) : IDCreator := { c with unif := flag }

/-- `IDCreator::get_new_id`: overflow error when the addressed counter has
wrapped to 0, otherwise return it and post-increment modulo `2^32`. -/
def get_new_id (c : IDCreator) (ns : IDNamespace) : Except String Nat × IDCreator :=
  if c.unif then
    if c.nextGlobal = 0 then (.error "ID namespace overflow", c)
    else (.ok c.nextGlobal, { c with nextGlobal := (c.nextGlobal + 1) % 4294967296 })
  else
    match ns with
    | .item =>
      if c.nextItem = 0 then (.error "ID namespace overflow", c)
      else (.ok c.nextItem, { c with nextItem := (c.nextItem + 1) % 4294967296 })
    | .track =>
      if c.nextTrack = 0 then (.error "ID namespace overflow", c)
      else (.ok c.nextTrack, { c with nextTrack := (c.nextTrack + 1) % 4294967296 })
    | .entity_group =>
      if c.nextEntity = 0 then (.error "ID namespace overflow", c)
      else (.ok c.nextEntity, { c with nextEntity := (c.nextEntity + 1) % 4294967296 })

/-- The counter a call for `ns` addresses in the creator's current mode. -/
def counterOf (c : IDCreator) (ns : IDNamespace) : Nat :=
  if c.unif then c.nextGlobal
  else
    match ns with
    | .item => c.nextItem
    | .track => c.nextTrack
    | .entity_group => c.nextEntity

/-- Run a sequence of allocations, recording per call the namespace asked
for and the result. -/
def runTrace : IDCreator → List IDNamespace → List (IDNamespace × Except String Nat)
  | _, [] => []
  | c, ns :: rest => (ns, (get_new_id c ns).1) :: runTrace (get_new_id c ns).2 rest

/-- Final state after a sequence of allocations. -/
def runState : IDCreator → List IDNamespace → IDCreator
  | c, [] => c
  | c, ns :: rest => runState (get_new_id c ns).2 rest

/-- The successfully returned IDs that belong to one counter's scope: in
unified mode every call shares the scope, otherwise only calls for `ns`. -/
def scopeOk (b : Bool) (tr : List (IDNamespace × Except String Nat))
    (ns : IDNamespace) : List Nat :=
  tr.filterMap fun p =>
    if b = true ∨ p.1 = ns then
      match p.2 with
      | .ok v => some v
      | .error _ => none
    else none

theorem get_new_id_unif (c : IDCreator) (ns : IDNamespace) :
    (get_new_id c ns).2.unif = c.unif := by
  unfold get_new_id
  cases ns <;> split_ifs <;> rfl

theorem counterOf_unif (c : IDCreator) (hu : c.unif = true) (m ns : IDNamespace) :
    counterOf c m = counterOf c ns := by
  simp [counterOf, hu]

theorem counterOf_nonscope (c : IDCreator) (m ns : IDNamespace) (hb : c.unif = false)
    (hne : ¬ m = ns) : counterOf (get_new_id c m).2 ns = counterOf c ns := by
  unfold get_new_id counterOf
  cases m <;> cases ns <;> simp_all <;> split_ifs <;> simp_all

theorem get_new_id_spec (c : IDCreator) (ns : IDNamespace) :
    (counterOf c ns = 0 → get_new_id c ns = (Except.error "ID namespace overflow", c))
    ∧ (counterOf c ns ≠ 0 → (get_new_id c ns).1 = Except.ok (counterOf c ns)
        ∧ counterOf (get_new_id c ns).2 ns = (counterOf c ns + 1) % 4294967296) := by
  by_cases hu : c.unif = true <;> cases ns <;>
    constructor <;> intro h <;> simp_all [get_new_id, counterOf]

theorem chain'_cons_of_forall {l : List Nat} {a : Nat} (hall : ∀ v ∈ l, a < v)
    (hc : List.Chain' (· < ·) l) : List.Chain' (· < ·) (a :: l) := by
  cases l with
  | nil => simp
  | cons b t => exact List.Chain'.cons (hall b (by simp)) hc

theorem scopeOk_spec (calls : List IDNamespace) (c : IDCreator) (ns : IDNamespace)
    (hinv : counterOf c ns < 4294967296) :
    (counterOf c ns = 0 → scopeOk c.unif (runTrace c calls) ns = [])
    ∧ (∀ v ∈ scopeOk c.unif (runTrace c calls) ns, counterOf c ns ≤ v)
    ∧ List.Chain' (· < ·) (scopeOk c.unif (runTrace c calls) ns) := by
  induction calls generalizing c with
  | nil => simp [runTrace, scopeOk]
  | cons m rest ih =>
    have hunif : (get_new_id c m).2.unif = c.unif := get_new_id_unif c m
    by_cases hs : c.unif = true ∨ m = ns
    · have hcm : counterOf c m = counterOf c ns := by
        rcases hs with hu | rfl
        · exact counterOf_unif c hu m ns
        · rfl
      by_cases hk : counterOf c ns = 0
      · have herr := (get_new_id_spec c m).1 (by rw [hcm]; exact hk)
        have hstate : (get_new_id c m).2 = c := by rw [herr]
        have hres : (get_new_id c m).1 = Except.error "ID namespace overflow" := by
          rw [herr]
        have hhead : scopeOk c.unif (runTrace c (m :: rest)) ns
            = scopeOk c.unif (runTrace (get_new_id c m).2 rest) ns := by
          rw [show runTrace c (m :: rest)
              = (m, (get_new_id c m).1) :: runTrace (get_new_id c m).2 rest from rfl]
          unfold scopeOk
          rw [List.filterMap_cons, hres]
          simp
        have ihc := ih (get_new_id c m).2 (by rw [hstate]; exact hinv)
        rw [hunif, hstate] at ihc
        rw [hhead, hstate]
        exact ⟨fun _ => ihc.1 hk, ihc.2.1, ihc.2.2⟩
      · have hsp := (get_new_id_spec c m).2 (by rw [hcm]; exact hk)
        have hres : (get_new_id c m).1 = Except.ok (counterOf c ns) := by
          rw [hsp.1, hcm]
        have hctr : counterOf (get_new_id c m).2 ns
            = (counterOf c ns + 1) % 4294967296 := by
          rcases hs with hu | rfl
          · have heq : counterOf (get_new_id c m).2 m
                = counterOf (get_new_id c m).2 ns :=
              counterOf_unif _ (by rw [hunif]; exact hu) m ns
            rw [← heq, hsp.2, hcm]
          · exact hsp.2
        have hhead : scopeOk c.unif (runTrace c (m :: rest)) ns
            = counterOf c ns :: scopeOk c.unif (runTrace (get_new_id c m).2 rest) ns := by
          rw [show runTrace c (m :: rest)
              = (m, (get_new_id c m).1) :: runTrace (get_new_id c m).2 rest from rfl]
          unfold scopeOk
          rw [List.filterMap_cons, hres]
          simp [hs]
        have ihc := ih (get_new_id c m).2 (by rw [hctr]; exact Nat.mod_lt _ (by norm_num))
        rw [hunif] at ihc
        rw [hhead]
        by_cases hwrap : (counterOf c ns + 1) % 4294967296 = 0
        · have hrest : scopeOk c.unif (runTrace (get_new_id c m).2 rest) ns = [] :=
            ihc.1 (by rw [hctr]; exact hwrap)
          rw [hrest]
          exact ⟨fun h0 => absurd h0 hk, by simp, by simp⟩
        · have hsucc : (counterOf c ns + 1) % 4294967296 = counterOf c ns + 1 := by
            rcases Nat.lt_or_ge (counterOf c ns + 1) 4294967296 with hlt | hge
            · exact Nat.mod_eq_of_lt hlt
            · have : counterOf c ns + 1 = 4294967296 := by omega
              rw [this] at hwrap
              simp at hwrap
          have hbound : ∀ v ∈ scopeOk c.unif (runTrace (get_new_id c m).2 rest) ns,
              counterOf c ns + 1 ≤ v := by
            intro v hv
            have := ihc.2.1 v hv
            rw [hctr, hsucc] at this
            exact this
          refine ⟨fun h0 => absurd h0 hk, ?_, ?_⟩
          · intro v hv
            rcases List.mem_cons.mp hv with rfl | hv'
            · exact Nat.le_refl _
            · exact Nat.le_trans (Nat.le_succ _) (hbound v hv')
          · exact chain'_cons_of_forall
              (fun v hv => Nat.lt_of_lt_of_le (Nat.lt_succ_self _) (hbound v hv))
              ihc.2.2
    · push_neg at hs
      obtain ⟨hu, hmn⟩ := hs
      have hu' : c.unif = false := by
        cases hb : c.unif
        · rfl
        · exact absurd hb hu
      have hctr : counterOf (get_new_id c m).2 ns = counterOf c ns :=
        counterOf_nonscope c m ns hu' hmn
      have hhead : scopeOk c.unif (runTrace c (m :: rest)) ns
          = scopeOk c.unif (runTrace (get_new_id c m).2 rest) ns := by
        rw [show runTrace c (m :: rest)
            = (m, (get_new_id c m).1) :: runTrace (get_new_id c m).2 rest from rfl]
        unfold scopeOk
        rw [List.filterMap_cons]
        have hcond : ¬ (c.unif = true ∨ m = ns) := by simp [hu', hmn]
        simp [hcond]
      have ihc := ih (get_new_id c m).2 (by rw [hctr]; exact hinv)
      rw [hunif] at ihc
      rw [hhead]
      exact ⟨fun h0 => ihc.1 (by rw [hctr]; exact h0),
        fun v hv => by rw [← hctr]; exact ihc.2.1 v hv, ihc.2.2⟩

/-- C8: in a fixed mode, every counter starts at 1 and is post-incremented
modulo `2^32`; a call that finds its counter at 0 returns the Usage error
"ID namespace overflow" and leaves the state unchanged; and the successfully
returned IDs of each counter's scope are strictly increasing, hence pairwise
distinct. -/
theorem C8_idcreator_unique_ids (b : Bool) (calls : List IDNamespace) (ns : IDNamespace) :
    counterOf (initIDCreator b) ns = 1
    ∧ (∀ c : IDCreator, counterOf c ns = 0 →
        get_new_id c ns = (Except.error "ID namespace overflow", c))
    ∧ (∀ c : IDCreator, counterOf c ns ≠ 0 →
        (get_new_id c ns).1 = Except.ok (counterOf c ns)
        ∧ counterOf (get_new_id c ns).2 ns = (counterOf c ns + 1) % 4294967296)
    ∧ List.Chain' (· < ·) (scopeOk b (runTrace (initIDCreator b) calls) ns)
    ∧ List.Pairwise (· ≠ ·) (scopeOk b (runTrace (initIDCreator b) calls) ns) := by
  have hinit : counterOf (initIDCreator b) ns = 1 := by
    cases b <;> cases ns <;> rfl
  have hspec := scopeOk_spec calls (initIDCreator b) ns (by rw [hinit]; norm_num)
  have hbu : (initIDCreator b).unif = b := rfl
  rw [hbu] at hspec
  exact ⟨hinit, fun c h => (get_new_id_spec c ns).1 h, fun c h => (get_new_id_spec c ns).2 h,
    hspec.2.2, (List.chain'_iff_pairwise.mp hspec.2.2).imp Nat.ne_of_lt⟩

/-- Instance of C8: three allocations in per-namespace mode give strictly
increasing item IDs, and a creator whose item counter has wrapped to 0
reports the overflow error. -/
theorem C8_idcreator_unique_ids_witness :
    List.Chain' (· < ·) (scopeOk false
        (runTrace (initIDCreator false)
          [IDNamespace.item, IDNamespace.item, IDNamespace.track]) IDNamespace.item)
    ∧ get_new_id ⟨false, 0, 1, 1, 1⟩ IDNamespace.item
        = (Except.error "ID namespace overflow", ⟨false, 0, 1, 1, 1⟩) :=
  ⟨(C8_idcreator_unique_ids false
      [IDNamespace.item, IDNamespace.item, IDNamespace.track] IDNamespace.item).2.2.2.1,
    (C8_idcreator_unique_ids false [] IDNamespace.item).2.1 ⟨false, 0, 1, 1, 1⟩ (by decide)⟩

/-- C9: in unified mode `get_new_id` reads and writes only the shared global
counter (the three per-namespace counters are untouched and the result is a
function of the global counter alone); in per-namespace mode the global
counter is untouched; and because the global counter starts at 1
independently of IDs already issued, an ID minted after switching to unified
mode can equal an ID issued before the switch. -/
theorem C9_idcreator_mode_frame (i t e g : Nat) (ns : IDNamespace) :
    ((get_new_id ⟨true, i, t, e, g⟩ ns).2.nextItem = i
      ∧ (get_new_id ⟨true, i, t, e, g⟩ ns).2.nextTrack = t
      ∧ (get_new_id ⟨true, i, t, e, g⟩ ns).2.nextEntity = e)
    ∧ (∀ i2 t2 e2 : Nat,
        (get_new_id ⟨true, i, t, e, g⟩ ns).1 = (get_new_id ⟨true, i2, t2, e2, g⟩ ns).1
        ∧ (get_new_id ⟨true, i, t, e, g⟩ ns).2.nextGlobal
            = (get_new_id ⟨true, i2, t2, e2, g⟩ ns).2.nextGlobal)
    ∧ ((get_new_id ⟨false, i, t, e, g⟩ ns).2.nextGlobal = g)
    ∧ (runTrace (initIDCreator false) [IDNamespace.item]
          = [(IDNamespace.item, Except.ok 1)]
      ∧ (get_new_id (set_unif (runState (initIDCreator false) [IDNamespace.item]) true)
            IDNamespace.track).1 = Except.ok 1) := by
  refine ⟨?_, ?_, ?_, ⟨rfl, rfl⟩⟩
  · unfold get_new_id
    by_cases hg : g = 0 <;> simp [hg]
  · intro i2 t2 e2
    unfold get_new_id
    by_cases hg : g = 0 <;> simp [hg]
  · unfold get_new_id
    cases ns <;> split_ifs <;> simp_all

end Unc
